import Mathlib

/-!
# Verification of the unsafe-instrumentation LLVM pass pipeline

A shallow embedding of the eight IR-rewriting passes of this repository
(MarkerPlanter/InstMarker, DebugInfoAnchor/DebugInfoPreserver, FunctionTracker,
InstructionCounter, CycleCounter/CpuCycleCount, ExternalCallTracker, HeapTracker,
DynamicLineCount) over a list-based model of LLVM IR, together with proofs of the
spec's testable properties.

Machine integers are modelled as `Nat` with explicit reduction modulo `2 ^ 16`
(the `uint16_t` per-category counters) and `2 ^ 32` (the `uint32_t` totals and
function ids) at every point where the C++ code stores into a fixed-width value.

The environment variable `CARGO_PRIMARY_PACKAGE` is modelled as a boolean
parameter `primary` passed to each pass that calls `getenv` in the source;
`DebugInfoPreserverPass::run` and `DynamicLineCountPass::run` perform no such
check in the source and therefore take no such parameter here.
-/

set_option maxHeartbeats 1000000

/-- LLVM instruction opcodes, restricted to the ones the passes distinguish.
`other` stands for every opcode not treated specially by any pass. -/
inductive Opcode where
  | load
  | store
  | atomicCmpXchg
  | atomicRMW
  | call
  | invoke
  | callbr
  | bitcast
  | intToPtr
  | ptrToInt
  | addrSpaceCast
  | getElementPtr
  | ret
  | br
  | fenceOp
  | phi
  | other
deriving DecidableEq, Repr

/-- Terminator opcodes (`Instruction::isTerminator`). `invoke` and `callbr`
are call sites that are also terminators. -/
def Opcode.isTerminator : Opcode → Bool
  | .ret | .br | .invoke | .callbr => true
  | _ => false

/-- A debug location descriptor (`DILocation`): line, column, file name, and
whether the scope/file references are non-null. -/
structure DebugLoc where
  line : Nat
  col : Nat
  file : String
  hasScope : Bool
  hasFile : Bool
deriving DecidableEq, Repr

/-- An argument of a call instruction created by the pipeline. `ssa k` denotes
the SSA value returned by the `k`-th measurement-start call created by the
same pass in the same function; `glob s` is a pointer to the global named `s`;
`str s` is a pointer to a global string constant holding `s`. -/
inductive Arg where
  | int (n : Nat)
  | str (s : String)
  | ssa (k : Nat)
  | glob (s : String)
deriving DecidableEq, Repr

/-- The shape of an instruction. `asmCall` is a call whose callee is inline
assembly with the given asm text (the marker sentinels); `dirCall` is a call
site (`call`/`invoke`/`callbr`) whose callee is the named function;
`fence` is a memory fence; everything else is `plain`. -/
inductive InstKind where
  | plain (op : Opcode)
  | asmCall (asmText : String)
  | dirCall (op : Opcode) (callee : String) (args : List Arg)
  | fence
deriving DecidableEq, Repr

/-- An IR instruction: its shape plus the metadata attachments the passes read
and write. `hasUnsafeInstMD` models presence of the front-end's `unsafe_inst`
attachment, `lineInfoMD` the `unsafe_line_info` attachment `{i32 line, string
file}`, `dbgLoc` the debug-location descriptor, `isDbgIntrinsic` whether the
instruction is a `DbgInfoIntrinsic`, `ptrOp` the value id of the pointer
operand of a load/store (read by HeapTracker), and `resultId` the id of the
SSA value the instruction defines, for the values referenced by `Arg.ssa`. -/
structure Inst where
  kind : InstKind
  hasUnsafeInstMD : Bool := false
  lineInfoMD : Option (Nat × String) := none
  dbgLoc : Option DebugLoc := none
  isDbgIntrinsic : Bool := false
  ptrOp : Nat := 0
  resultId : Option Nat := none
deriving DecidableEq, Repr

/-- The opcode of an instruction (calls through inline asm and direct calls
report their call-site opcode; a fence is its own opcode). -/
def Inst.opcode (i : Inst) : Opcode :=
  match i.kind with
  | .plain op => op
  | .asmCall _ => .call
  | .dirCall op _ _ => op
  | .fence => .fenceOp

/-- `Instruction::isTerminator` on the embedded instruction. -/
def Inst.isTerm (i : Inst) : Bool := i.opcode.isTerminator

/-- A function: name, declaration/intrinsic flags, the `unsafe_count.func_id`
metadata attachment, and the ordered list of basic blocks (each a list of
instructions whose last element is the terminator). -/
structure Func where
  name : String
  isDeclaration : Bool := false
  isIntrinsic : Bool := false
  funcIdMD : Option Nat := none
  blocks : List (List Inst) := []
  noinline : Bool := false
  internalLinkage : Bool := false
deriving DecidableEq, Repr

/-- Payload of a module-level global variable created by the pipeline:
the packed function-metadata table, the one-byte debug-info anchor with its
`preserved.debuginfo` attachment, or a string constant. -/
inductive GPayload where
  | metaTable (recs : List (Nat × Nat × Nat × Nat))
  | anchor (locs : List DebugLoc)
  | strConst (s : String)
deriving DecidableEq, Repr

/-- A module-level global variable. -/
structure GlobalVar where
  name : String
  payload : GPayload
deriving DecidableEq, Repr

/-- A module: functions, globals, the `llvm.global_ctors`/`llvm.global_dtors`
lists (function name, priority), and the `llvm.compiler.used` set. -/
structure IRModule where
  functions : List Func := []
  globals : List GlobalVar := []
  ctors : List (String × Nat) := []
  dtors : List (String × Nat) := []
  compilerUsed : List String := []
deriving DecidableEq, Repr

/-- `IRModule::getOrInsertFunction`: if no function with this name exists, append
an external declaration of it. -/
def IRModule.getOrInsertFunction (m : IRModule) (fname : String) : IRModule :=
  if m.functions.any (fun f => f.name = fname) then m
  else { m with functions := m.functions ++ [{ name := fname, isDeclaration := true }] }

/-! ## Marker sentinels (InstMarker.h / InstMarker.cpp) -/

def UNSAFE_MARKER_BEGIN : String := "nop # marker_begin"
def UNSAFE_MARKER_END : String := "nop # marker_end"

/-- The begin sentinel: a side-effecting inline-assembly call. -/
def mkMarkerBegin : Inst := { kind := .asmCall UNSAFE_MARKER_BEGIN }

/-- The end sentinel. -/
def mkMarkerEnd : Inst := { kind := .asmCall UNSAFE_MARKER_END }

/-- Is this instruction an inline-asm call with the begin sentinel text? -/
def isMarkerBegin (i : Inst) : Bool :=
  match i.kind with
  | .asmCall s => s = UNSAFE_MARKER_BEGIN
  | _ => false

/-- Is this instruction an inline-asm call with the end sentinel text? -/
def isMarkerEnd (i : Inst) : Bool :=
  match i.kind with
  | .asmCall s => s = UNSAFE_MARKER_END
  | _ => false

/-- Is this instruction a marker sentinel (begin or end)? -/
def isMarkerInst (i : Inst) : Bool := isMarkerBegin i || isMarkerEnd i

/-! ## MarkerPlanter (InstMarkerPass) -/

/-- Predicate used to scan for the first/last unsafe instruction of a block. -/
def notUnsafeMD (i : Inst) : Bool := !i.hasUnsafeInstMD

/-- `InstMarkerPass::captureUnsafeLineInfo` on one instruction: if it carries
`unsafe_inst` and has a debug location with non-zero line and non-empty file
name, attach `unsafe_line_info = {line, file}`. -/
def captureInst (i : Inst) : Inst :=
  if i.hasUnsafeInstMD then
    match i.dbgLoc with
    | some loc =>
        if loc.line ≠ 0 ∧ loc.file ≠ "" then
          { i with lineInfoMD := some (loc.line, loc.file) }
        else i
    | none => i
  else i

/-- `insertUnsafeMarkers`, restricted to one basic block: find the first and
last instruction carrying `unsafe_inst`; insert the begin sentinel immediately
before the first; insert the end sentinel after the last (`getNextNode`), or,
when the last unsafe instruction has no next instruction (it is the block
terminator), immediately before the block's last instruction. -/
def markBlock (b : List Inst) : List Inst :=
  if b.any (fun i => i.hasUnsafeInstMD) then
    let pre := b.takeWhile notUnsafeMD
    let post := (b.reverse.takeWhile notUnsafeMD).reverse
    let core := (b.reverse.dropWhile notUnsafeMD).reverse
    let span := core.dropWhile notUnsafeMD
    if post.isEmpty then
      pre ++ mkMarkerBegin :: (span.dropLast ++ mkMarkerEnd :: span.drop (span.length - 1))
    else
      pre ++ mkMarkerBegin :: (span ++ mkMarkerEnd :: post)
  else b

/-- The whole per-block effect of `InstMarkerPass::run` on a primary build:
line-info capture (which runs first) followed by marker insertion. -/
def markerPlantBlock (b : List Inst) : List Inst :=
  markBlock (b.map captureInst)

/-- `InstMarkerPass::run`: on a non-primary build, return the function
unmodified and report no change; otherwise capture line info, insert markers,
and report a change exactly when some block contained an unsafe instruction. -/
def InstMarkerPass.run (primary : Bool) (F : Func) : Func × Bool :=
  if !primary then (F, false)
  else
    ({ F with blocks := F.blocks.map markerPlantBlock },
     F.blocks.any (fun b => b.any (fun i => i.hasUnsafeInstMD)))

/-! ## CycleCounter (CpuCycleCountPass) -/

def PROGRAM_START_FN : String := "record_program_start"
def START_MEASUREMENT_FN : String := "cpu_cycle_start_measurement"
def END_MEASUREMENT_FN : String := "cpu_cycle_end_measurement"
def PRINT_STATS_FN : String := "print_cpu_cycle_stats"

/-- A sequentially-consistent memory fence created by `CreateFence`. -/
def fenceInst : Inst := { kind := .fence }

/-- The `cpu_cycle_start_measurement()` call created for the `k`-th matched
marker pair of a function; its return value is the SSA value `k`. -/
def startMeasureCall (k : Nat) : Inst :=
  { kind := .dirCall .call START_MEASUREMENT_FN [], resultId := some k }

/-- The `cpu_cycle_end_measurement(start)` call for the `k`-th matched pair,
fed the value returned by the `k`-th start call. -/
def endMeasureCall (k : Nat) : Inst :=
  { kind := .dirCall .call END_MEASUREMENT_FN [Arg.ssa k] }

/-- Split a block suffix at the first end sentinel: `some (mid, after)` with
the suffix equal to `mid ++ end-marker :: after` and no end marker in `mid`;
`none` when no end sentinel follows. -/
def splitAtEndMarker : List Inst → Option (List Inst × List Inst)
  | [] => none
  | i :: rest =>
    if isMarkerEnd i then some ([], rest)
    else
      match splitAtEndMarker rest with
      | some (mid, after) => some (i :: mid, after)
      | none => none

/-- The net effect of `instrumentUnsafeBlocks` on one basic block: the scan of
pass one matches each first-seen begin marker with the first end marker that
follows it in the same block (nested begins are ignored, stray markers are
left in place); pass two inserts a fence and a start call at each matched
begin's position and a fence and an end call fed the start's value at each
matched end's position; pass three erases the two matched markers.  `k` is the
index of the next matched pair (the SSA numbering of the start calls); `fuel`
is an upper bound on the list length making the recursion structural. -/
def cycleGo : Nat → Nat → List Inst → List Inst × Nat
  | 0, k, l => (l, k)
  | _ + 1, k, [] => ([], k)
  | fuel + 1, k, i :: rest =>
    if isMarkerBegin i then
      match splitAtEndMarker rest with
      | some (mid, after) =>
        let r := cycleGo fuel (k + 1) after
        (fenceInst :: startMeasureCall k :: (mid ++ fenceInst :: endMeasureCall k :: r.1), r.2)
      | none =>
        let r := cycleGo fuel k rest
        (i :: r.1, r.2)
    else
      let r := cycleGo fuel k rest
      (i :: r.1, r.2)

/-- One block of the CycleCounter rewrite, starting at pair index `k`. -/
def cycleRwBlock (k : Nat) (b : List Inst) : List Inst × Nat := cycleGo b.length k b

/-- Does the first-pass scan of `instrumentUnsafeBlocks` find at least one
matched begin/end pair in this block?  (An end sentinel pairs only when a
begin sentinel was already current, and the first begin stays current until an
end is met, so a pair exists iff an end marker follows the first begin.) -/
def blockHasPair (b : List Inst) : Bool :=
  ((b.dropWhile fun i => !isMarkerBegin i).tail).any isMarkerEnd

/-- CycleCounter's rewrite over the blocks of one function, threading the
matched-pair SSA numbering through the blocks in order. -/
def cycleRwBlocks (k : Nat) : List (List Inst) → List (List Inst)
  | [] => []
  | b :: bs => (cycleRwBlock k b).1 :: cycleRwBlocks (cycleRwBlock k b).2 bs

/-- `instrumentUnsafeBlocks`: when the first pass collected no pairs the
function is returned untouched reporting `false`; otherwise the rewrite is
applied and `true` is reported. -/
def instrumentUnsafeBlocksF (F : Func) : Func × Bool :=
  if F.blocks.any blockHasPair then
    ({ F with blocks := cycleRwBlocks 0 F.blocks }, true)
  else (F, false)

/-- The internal `cpu_cycle_ctor` function created by `setupModuleHooks`,
whose body calls `record_program_start` and returns. -/
def cpuCycleCtorFunc : Func :=
  { name := "cpu_cycle_ctor"
    internalLinkage := true
    blocks := [[{ kind := .dirCall .call PROGRAM_START_FN [] }, { kind := .plain .ret }]] }

/-- `setupModuleHooks`: create `cpu_cycle_ctor` and register it at ctor
priority 0; register `print_cpu_cycle_stats` at dtor priority 0. -/
def setupModuleHooks (m : IRModule) : IRModule :=
  { m with
      functions := m.functions ++ [cpuCycleCtorFunc]
      ctors := m.ctors ++ [("cpu_cycle_ctor", 0)]
      dtors := m.dtors ++ [(PRINT_STATS_FN, 0)] }

/-- `CpuCycleCountPass::run`: gate on the primary package; declare the four
runtime helpers; install the module hooks; instrument every non-declaration
function; report a change iff some function was instrumented. -/
def CpuCycleCountPass.run (primary : Bool) (m : IRModule) : IRModule × Bool :=
  if !primary then (m, false)
  else
    let m1 := ((((m.getOrInsertFunction PROGRAM_START_FN).getOrInsertFunction
        START_MEASUREMENT_FN).getOrInsertFunction
        END_MEASUREMENT_FN).getOrInsertFunction PRINT_STATS_FN)
    let m2 := setupModuleHooks m1
    ({ m2 with
        functions := m2.functions.map fun f =>
          if f.isDeclaration then f else (instrumentUnsafeBlocksF f).1 },
     m2.functions.any fun f => !f.isDeclaration && (instrumentUnsafeBlocksF f).2)

/-! ## ExternalCallTracker (ExternalCallTrackerPass) -/

def EXTERNAL_CALL_START_FN : String := "external_call_start"
def EXTERNAL_CALL_END_FN : String := "external_call_end"

/-- `StringRef::startswith`, phrased over the character list so that it
evaluates by kernel reduction. -/
def strStarts (s p : String) : Bool :=
  p.data.isPrefixOf s.data

/-- `isRuntimeFunction`: the three name prefixes ExternalCallTracker skips. -/
def isRuntimeFunction (n : String) : Bool :=
  strStarts n "cpu_cycle_" || strStarts n "record_" || strStarts n "external_call_"

/-- Find the function of this name in the module (`getCalledFunction`
resolution for a direct call). -/
def IRModule.lookupFunc (m : IRModule) (n : String) : Option Func :=
  m.functions.find? fun f => f.name = n

/-- The first-pass collection filter of `instrumentExternalCalls`: a call
site whose callee is a known function that is a declaration, not an
intrinsic, and not runtime-named. -/
def isExternalCallSite (m : IRModule) (i : Inst) : Bool :=
  match i.kind with
  | .dirCall _ callee _ =>
    match m.lookupFunc callee with
    | some f => f.isDeclaration && !f.isIntrinsic && !isRuntimeFunction f.name
    | none => false
  | _ => false

/-- The `external_call_start()` call wrapping the `k`-th instrumented call
site; its return value is SSA value `k`. -/
def extStartCall (k : Nat) : Inst :=
  { kind := .dirCall .call EXTERNAL_CALL_START_FN [], resultId := some k }

/-- The `external_call_end(start)` call fed the `k`-th start's value. -/
def extEndCall (k : Nat) : Inst :=
  { kind := .dirCall .call EXTERNAL_CALL_END_FN [Arg.ssa k] }

/-- The net effect of the second pass of `instrumentExternalCalls` on one
block.  Each collected call that is not a terminator receives a fence and an
`external_call_start` immediately before it; a fence and an
`external_call_end` fed the start's value are inserted before the next
non-debug instruction (debug intrinsics stay in front of the end pair); a
call with no next instruction keeps its start but gets no end, and only an
inserted end sets the modification flag.  `pending` carries the SSA id of a
start whose end is still to be placed; `k` numbers the instrumented calls in
collection order. -/
def extGo (elig : Inst → Bool) (k : Nat) (pending : Option Nat) :
    List Inst → List Inst × Nat × Bool
  | [] => ([], k, false)
  | i :: rest =>
    if i.isDbgIntrinsic then
      let r := extGo elig k pending rest
      (i :: r.1, r.2)
    else
      let flushPre : List Inst :=
        match pending with
        | some t => [fenceInst, extEndCall t]
        | none => []
      let flushed : Bool := pending.isSome
      if elig i && !i.isTerm then
        let r := extGo elig (k + 1) (some k) rest
        (flushPre ++ fenceInst :: extStartCall k :: i :: r.1, r.2.1, flushed || r.2.2)
      else
        let r := extGo elig k none rest
        (flushPre ++ i :: r.1, r.2.1, flushed || r.2.2)

/-- `instrumentExternalCalls` over the blocks of a function, threading the
SSA numbering of the start calls. -/
def extBlocks (elig : Inst → Bool) (k : Nat) :
    List (List Inst) → List (List Inst) × Nat × Bool
  | [] => ([], k, false)
  | b :: bs =>
    let r := extGo elig k none b
    let rs := extBlocks elig r.2.1 bs
    (r.1 :: rs.1, rs.2.1, r.2.2 || rs.2.2)

/-- `instrumentExternalCalls`: if the first pass collects nothing, return the
function untouched reporting `false`; otherwise apply the insertion pass and
report whether any end call was inserted. -/
def instrumentExternalCalls (m : IRModule) (F : Func) : Func × Bool :=
  if F.blocks.any fun b => b.any (isExternalCallSite m) then
    let r := extBlocks (isExternalCallSite m) 0 F.blocks
    ({ F with blocks := r.1 }, r.2.2)
  else (F, false)

/-- The module after ExternalCallTracker declares its two runtime helpers. -/
def extDeclare (m : IRModule) : IRModule :=
  (m.getOrInsertFunction EXTERNAL_CALL_START_FN).getOrInsertFunction EXTERNAL_CALL_END_FN

/-- `ExternalCallTrackerPass::run`: gate on the primary package, declare the
two runtime helpers, then instrument every non-declaration function whose own
name is not runtime-named. -/
def ExternalCallTrackerPass.run (primary : Bool) (m : IRModule) : IRModule × Bool :=
  if !primary then (m, false)
  else
    let m1 := extDeclare m
    ({ m1 with
        functions := m1.functions.map fun f =>
          if f.isDeclaration || isRuntimeFunction f.name then f
          else (instrumentExternalCalls m1 f).1 },
     m1.functions.any fun f =>
       !f.isDeclaration && !isRuntimeFunction f.name && (instrumentExternalCalls m1 f).2)

/-! ## FunctionTracker (UnsafeFunctionTrackerPass) -/

def INIT_METADATA_FN : String := "__unsafe_init_metadata"
def RECORD_FUNCTION_FN : String := "__unsafe_record_function"
def DUMP_STATS_FN : String := "__unsafe_dump_stats"

/-- `shouldInstrumentFunction` (identical in UnsafeFunctionTracker.cpp and
UnsafeInstCounter.cpp): non-declaration, non-intrinsic, name not beginning
with `__unsafe_` or `llvm.`. -/
def shouldInstrumentFunction (f : Func) : Bool :=
  !f.isDeclaration && !f.isIntrinsic &&
    !(strStarts f.name "__unsafe_") && !(strStarts f.name "llvm.")

/-- The instruction scan of `analyzeFunction`: the `inUnsafeRegion` flag is
flipped by marker sentinels (which are not otherwise inspected), and the scan
reports success at the first instruction that carries `unsafe_inst` while the
flag is set. -/
def analyzeGo : Bool → List Inst → Bool
  | _, [] => false
  | inR, i :: rest =>
    if isMarkerBegin i then analyzeGo true rest
    else if isMarkerEnd i then analyzeGo false rest
    else if inR && i.hasUnsafeInstMD then true
    else analyzeGo inR rest

/-- `analyzeFunction`: the `inUnsafeRegion` flag is declared outside the
basic-block loop in the C++ and is therefore carried across block boundaries;
scanning the concatenation of the blocks is that loop. -/
def analyzeFunction (F : Func) : Bool := analyzeGo false F.blocks.flatten

/-- Phase 1 of `UnsafeFunctionTrackerPass::run`: walk the functions in module
order; each eligible function receives the next dense id as its
`unsafe_count.func_id` attachment (stored as an `i32`, hence mod `2 ^ 32`) and
contributes a `{id, isUnsafe ? 1 : 0, 0, 0}` record. -/
def trackerPhase1 : List Func → Nat → List Func × List (Nat × Nat × Nat × Nat)
  | [], _ => ([], [])
  | f :: fs, n =>
    if shouldInstrumentFunction f then
      let f1 := { f with funcIdMD := some (n % 2 ^ 32) }
      let entry := (n % 2 ^ 32, if analyzeFunction f1 then 1 else 0, 0, 0)
      let r := trackerPhase1 fs (n + 1)
      (f1 :: r.1, entry :: r.2)
    else
      let r := trackerPhase1 fs n
      (f :: r.1, r.2)

/-- Phase 2 attribute setting: the three runtime helpers get `NoInline` and
external linkage. -/
def setTrackerAttrs (fs : List Func) : List Func :=
  fs.map fun f =>
    if f.name = INIT_METADATA_FN ∨ f.name = RECORD_FUNCTION_FN ∨ f.name = DUMP_STATS_FN then
      { f with noinline := true, internalLinkage := false }
    else f

/-- The internal `__unsafe_module_init` function of phase 4: it passes the
table pointer and the record count (an `i32`) to `__unsafe_init_metadata` and
returns. -/
def trackerInitFunc (count : Nat) : Func :=
  { name := "__unsafe_module_init"
    internalLinkage := true
    blocks := [[{ kind := .dirCall .call INIT_METADATA_FN
                    [Arg.glob "__unsafe_metadata_table", Arg.int (count % 2 ^ 32)] },
                { kind := .plain .ret }]] }

/-- The `__unsafe_record_function(id)` call planted at a function entry. -/
def recordFunctionCall (fid : Nat) : Inst :=
  { kind := .dirCall .call RECORD_FUNCTION_FN [Arg.int fid] }

/-- `UnsafeFunctionTrackerPass::run`.  Phase 5 walks the saved list of
eligible functions; since the functions added by phases 2-4 are all either
declarations or `__unsafe_`-named, mapping the eligibility filter over the
final function list instruments exactly that saved list. -/
def UnsafeFunctionTrackerPass.run (primary : Bool) (m : IRModule) : IRModule × Bool :=
  if !primary then (m, false)
  else
    let p1 := trackerPhase1 m.functions 0
    if p1.2.isEmpty then ({ m with functions := p1.1 }, false)
    else
      let m2 := ((({ m with functions := p1.1 }).getOrInsertFunction
          INIT_METADATA_FN).getOrInsertFunction
          RECORD_FUNCTION_FN).getOrInsertFunction DUMP_STATS_FN
      let m5 :=
        { m2 with
            functions := setTrackerAttrs m2.functions ++ [trackerInitFunc p1.2.length]
            globals := m2.globals ++
              [{ name := "__unsafe_metadata_table", payload := .metaTable p1.2 : GlobalVar }]
            ctors := m2.ctors ++ [("__unsafe_module_init", 0)]
            dtors := m2.dtors ++ [(DUMP_STATS_FN, 0)] }
      ({ m5 with
          functions := m5.functions.map fun f =>
            if shouldInstrumentFunction f then
              match f.funcIdMD, f.blocks with
              | some fid, b :: bs => { f with blocks := (recordFunctionCall fid :: b) :: bs }
              | _, _ => f
            else f },
       true)

/-! ## InstructionCounter (UnsafeInstCounterPass) -/

def RECORD_BLOCK_FN : String := "__unsafe_record_block"

/-- The per-block counters of `UnsafeInstCounterPass::BlockCounts`: two
32-bit totals and six 16-bit category counters. -/
structure BlockCounts where
  totalInsts : Nat := 0
  totalUnsafeInsts : Nat := 0
  cntLoad : Nat := 0
  cntStore : Nat := 0
  cntCall : Nat := 0
  cntCast : Nat := 0
  cntGep : Nat := 0
  cntOther : Nat := 0
deriving DecidableEq, Repr

/-- The six instruction categories. -/
inductive UnsafeCategory where
  | uLoad | uStore | uCall | uCast | uGep | uOther
deriving DecidableEq, Repr

/-- `UnsafeInstCounterPass::getUnsafeCategory` (total: the default case
returns OTHER, the C++ function never reports failure). -/
def getUnsafeCategory : Opcode → UnsafeCategory
  | .load => .uLoad
  | .store | .atomicCmpXchg | .atomicRMW => .uStore
  | .call | .invoke | .callbr => .uCall
  | .bitcast | .intToPtr | .ptrToInt | .addrSpaceCast => .uCast
  | .getElementPtr => .uGep
  | _ => .uOther

/-- Increment one 16-bit category counter (wrapping, as `uint16_t` does). -/
def bumpCategory (c : BlockCounts) : UnsafeCategory → BlockCounts
  | .uLoad => { c with cntLoad := (c.cntLoad + 1) % 2 ^ 16 }
  | .uStore => { c with cntStore := (c.cntStore + 1) % 2 ^ 16 }
  | .uCall => { c with cntCall := (c.cntCall + 1) % 2 ^ 16 }
  | .uCast => { c with cntCast := (c.cntCast + 1) % 2 ^ 16 }
  | .uGep => { c with cntGep := (c.cntGep + 1) % 2 ^ 16 }
  | .uOther => { c with cntOther := (c.cntOther + 1) % 2 ^ 16 }

/-- One iteration of the loop of `analyzeBasicBlock`: skip debug intrinsics,
flip the region flag at markers without counting them, count every other
instruction, and count and categorize it as unsafe when inside a region. -/
def analyzeStep (s : BlockCounts × Bool) (i : Inst) : BlockCounts × Bool :=
  if i.isDbgIntrinsic then s
  else if isMarkerBegin i then (s.1, true)
  else if isMarkerEnd i then (s.1, false)
  else
    let c1 := { s.1 with totalInsts := (s.1.totalInsts + 1) % 2 ^ 32 }
    if s.2 then
      (bumpCategory
        { c1 with totalUnsafeInsts := (c1.totalUnsafeInsts + 1) % 2 ^ 32 }
        (getUnsafeCategory i.opcode), s.2)
    else (c1, s.2)

/-- `UnsafeInstCounterPass::analyzeBasicBlock`. -/
def analyzeBasicBlock (b : List Inst) : BlockCounts :=
  (b.foldl analyzeStep ({}, false)).1

/-- The `__unsafe_record_block(func_id, total, unsafe_total, load, store,
call, cast, gep, other)` call carrying a count vector. -/
def recordBlockCall (fid : Nat) (c : BlockCounts) : Inst :=
  { kind := .dirCall .call RECORD_BLOCK_FN
      [Arg.int fid, Arg.int c.totalInsts, Arg.int c.totalUnsafeInsts,
       Arg.int c.cntLoad, Arg.int c.cntStore, Arg.int c.cntCall,
       Arg.int c.cntCast, Arg.int c.cntGep, Arg.int c.cntOther] }

/-- The per-block instrumentation of `UnsafeInstCounterPass::run`: skip blocks
whose `totalInsts` counter is zero; blocks with a zero `totalUnsafeInsts`
counter get a call with literal zero category fields; the call is inserted
immediately before the block's last instruction (`BB.getTerminator()`). -/
def instCounterBlock (fid : Nat) (b : List Inst) : List Inst :=
  let c := analyzeBasicBlock b
  if c.totalInsts = 0 then b
  else if c.totalUnsafeInsts = 0 then
    b.dropLast ++ recordBlockCall fid { totalInsts := c.totalInsts } :: b.drop (b.length - 1)
  else
    b.dropLast ++ recordBlockCall fid c :: b.drop (b.length - 1)

/-- `UnsafeInstCounterPass::run`.  `getFunctionId` returns `UINT32_MAX` when
the `unsafe_count.func_id` attachment is missing, and the stored constant
truncated to `uint32_t` otherwise; a function whose id equals `UINT32_MAX` is
skipped. -/
def UnsafeInstCounterPass.run (primary : Bool) (F : Func) : Func × Bool :=
  if !primary then (F, false)
  else if !shouldInstrumentFunction F then (F, false)
  else
    match F.funcIdMD with
    | none => (F, false)
    | some v =>
      if v % 2 ^ 32 = 2 ^ 32 - 1 then (F, false)
      else
        ({ F with blocks := F.blocks.map (instCounterBlock (v % 2 ^ 32)) },
         F.blocks.any fun b => (analyzeBasicBlock b).totalInsts ≠ 0)

/-! ## HeapTracker (HeapTrackerPass) -/

def DYN_MEM_ACCESS_FN : String := "dyn_mem_access"
def DYN_UNSAFE_MEM_ACCESS_FN : String := "dyn_unsafe_mem_access"

/-- `isa<LoadInst> || isa<StoreInst>`. -/
def isLoadOrStore (i : Inst) : Bool := i.opcode = .load || i.opcode = .store

/-- The `dyn_mem_access(addr)` call for a load/store with pointer operand
`i.ptrOp`. -/
def memAccessCall (i : Inst) : Inst :=
  { kind := .dirCall .call DYN_MEM_ACCESS_FN [Arg.ssa i.ptrOp] }

/-- The `dyn_unsafe_mem_access(addr, is_load)` call. -/
def unsafeMemAccessCall (i : Inst) : Inst :=
  { kind := .dirCall .call DYN_UNSAFE_MEM_ACCESS_FN
      [Arg.ssa i.ptrOp, Arg.int (if i.opcode = .load then 1 else 0)] }

/-- Sweep A (`instrumentMemInst`) on one block: a `dyn_mem_access` call is
inserted immediately before every load and store. -/
def sweepABlock (b : List Inst) : List Inst :=
  (b.map fun i => if isLoadOrStore i then [memAccessCall i, i] else [i]).flatten

/-- Sweep B (`instrumentUnsafeMemInst`) on one block: track an active begin
marker (reset at each block) and insert a `dyn_unsafe_mem_access` call before
each load/store encountered while a begin marker is active; the load/store
check precedes the marker update, so markers themselves never match. -/
def sweepBGo : Bool → List Inst → List Inst
  | _, [] => []
  | active, i :: rest =>
    let emit : List Inst := if active && isLoadOrStore i then [unsafeMemAccessCall i] else []
    let active' := if isMarkerBegin i then true else if isMarkerEnd i then false else active
    emit ++ i :: sweepBGo active' rest

/-- `HeapTrackerPass::run` on one function (the declarations it inserts into
the parent module are handled by the module-level wrapper below): sweep A
then sweep B; the pass always reports all analyses preserved. -/
def HeapTrackerPass.run (primary : Bool) (F : Func) : Func × Bool :=
  if !primary then (F, false)
  else
    ({ F with blocks := F.blocks.map fun b => sweepBGo false (sweepABlock b) }, false)

/-! ## DebugInfoAnchor (DebugInfoPreserverPass) — no primary-package gate -/

/-- `isValidDebugLocation`: non-null scope and file, positive line and
column. -/
def isValidDebugLocation (loc : DebugLoc) : Bool :=
  loc.hasScope && loc.hasFile && decide (0 < loc.line) && decide (0 < loc.col)

/-- `verifyPHINodes`: the C++ walk advances `I` and `InsertPt` together from
`BB.begin()` and stops at the first non-phi, so `PN->getIterator() !=
InsertPt` never holds, no instruction is moved, and `Modified` stays `false`;
the function is the identity it computes. -/
def verifyPHINodes (b : List Inst) : List Inst × Bool := (b, false)

/-- `DebugInfoPreserverPass::run` (no `CARGO_PRIMARY_PACKAGE` check exists in
this pass): reorder leading phis (a no-op, see `verifyPHINodes`),
unconditionally create the one-byte internal anchor global
`__unsafe_coverage_anchor`, attach every valid debug location found in the
module under `preserved.debuginfo`, add the anchor to the compiler-used set,
and report no change (the `Modified` flag only tracks phi moves). -/
def DebugInfoPreserverPass.run (m : IRModule) : IRModule × Bool :=
  let locs := (m.functions.map fun f => f.blocks.flatten).flatten.filterMap fun i =>
    match i.dbgLoc with
    | some loc => if isValidDebugLocation loc then some loc else none
    | none => none
  ({ m with
      globals := m.globals ++ [{ name := "__unsafe_coverage_anchor", payload := .anchor locs }]
      compilerUsed := m.compilerUsed ++ ["__unsafe_coverage_anchor"] },
   false)

/-! ## DynamicLineCount (DynamicLineCountPass) — no primary-package gate -/

def REGISTER_UNSAFE_LINE_FN : String := "register_unsafe_line"
def TRACK_UNSAFE_LINE_EXECUTION_FN : String := "track_unsafe_line_execution"
def PRINT_UNSAFE_COVERAGE_STATS_FN : String := "print_unsafe_coverage_stats"

/-- DynamicLineCount's `shouldInstrumentFunction`: it excludes its own five
runtime helpers by exact name (not by prefix). -/
def dlcShouldInstrument (f : Func) : Bool :=
  !f.isDeclaration && !f.isIntrinsic &&
    f.name ≠ REGISTER_UNSAFE_LINE_FN &&
    f.name ≠ TRACK_UNSAFE_LINE_EXECUTION_FN &&
    f.name ≠ PRINT_UNSAFE_COVERAGE_STATS_FN &&
    f.name ≠ "unsafe_lines_module_ctor" &&
    f.name ≠ "unsafe_lines_module_dtor"

/-- `track_unsafe_line_execution(line, file)`; the file pointer created by
`CreateGlobalStringPtr` is modelled as an inline string constant. -/
def trackExecCall (line : Nat) (file : String) : Inst :=
  { kind := .dirCall .call TRACK_UNSAFE_LINE_EXECUTION_FN [Arg.int line, Arg.str file] }

/-- `register_unsafe_line(line, file)`. -/
def registerLineCall (line : Nat) (file : String) : Inst :=
  { kind := .dirCall .call REGISTER_UNSAFE_LINE_FN [Arg.int line, Arg.str file] }

/-- Ordered insertion into the `std::set<std::string>` of line keys
(lexicographic `String` order, duplicates collapsed). -/
def insertSortedKey (s : String) : List String → List String
  | [] => [s]
  | x :: xs =>
    if s < x then s :: x :: xs
    else if s = x then x :: xs
    else x :: insertSortedKey s xs

/-- One block of `collectAndInstrumentFunction`: the region flag is local to
the block; inside a region, an instruction carrying both `unsafe_inst` and a
well-formed `unsafe_line_info` contributes `file ++ ":" ++ line` to the key
set and receives a `track_unsafe_line_execution` call immediately before it.
Returns the rewritten block, the updated key set, and the modified flag. -/
def dlcGoBlock : Bool → List String → List Inst → List Inst × List String × Bool
  | _, keys, [] => ([], keys, false)
  | inside, keys, i :: rest =>
    if isMarkerBegin i then
      let r := dlcGoBlock true keys rest
      (i :: r.1, r.2)
    else if isMarkerEnd i then
      let r := dlcGoBlock false keys rest
      (i :: r.1, r.2)
    else if inside && i.hasUnsafeInstMD then
      match i.lineInfoMD with
      | some (line, file) =>
        let key := file ++ ":" ++ toString line
        let r := dlcGoBlock inside (insertSortedKey key keys) rest
        (trackExecCall line file :: i :: r.1, r.2.1, true)
      | none =>
        let r := dlcGoBlock inside keys rest
        (i :: r.1, r.2)
    else
      let r := dlcGoBlock inside keys rest
      (i :: r.1, r.2)

/-- `collectAndInstrumentFunction` over a function's blocks. -/
def dlcBlocks (keys : List String) : List (List Inst) → List (List Inst) × List String × Bool
  | [] => ([], keys, false)
  | b :: bs =>
    let rb := dlcGoBlock false keys b
    let r := dlcBlocks rb.2.1 bs
    (rb.1 :: r.1, r.2.1, rb.2.2 || r.2.2)

/-- Phase 1 of `DynamicLineCountPass::run` over the module's functions. -/
def dlcFunctions (keys : List String) : List Func → List Func × List String × Bool
  | [] => ([], keys, false)
  | f :: fs =>
    if dlcShouldInstrument f then
      let rb := dlcBlocks keys f.blocks
      let r := dlcFunctions rb.2.1 fs
      ({ f with blocks := rb.1 } :: r.1, r.2.1, rb.2.2 || r.2.2)
    else
      let r := dlcFunctions keys fs
      (f :: r.1, r.2)

/-- `std::stoul` on the digit prefix of a string (the constructor parses the
text after the first `:` of each key; every key produced by phase 1 from a
colon-free file name puts the decimal line number there). -/
def stoulPrefix (s : String) : Nat :=
  (s.takeWhile Char.isDigit).foldl (fun n c => n * 10 + (c.toNat - 48)) 0

/-- Key parsing in `createModuleConstructor`: the file is everything before
the first `:`, the line is parsed from what follows it. -/
def parseLineKey (key : String) : String × Nat :=
  let file := key.takeWhile fun c => c ≠ ':'
  (file, stoulPrefix (key.drop (file.length + 1)))

/-- `createModuleConstructor`: an internal `unsafe_lines_module_ctor` that
registers every collected key, in set order, then returns. -/
def dlcCtorFunc (keys : List String) : Func :=
  { name := "unsafe_lines_module_ctor"
    internalLinkage := true
    blocks := [(keys.map fun key =>
        registerLineCall (parseLineKey key).2 (parseLineKey key).1) ++
      [{ kind := .plain .ret }]] }

/-- `createModuleDestructor`: an internal `unsafe_lines_module_dtor` calling
`print_unsafe_coverage_stats`. -/
def dlcDtorFunc : Func :=
  { name := "unsafe_lines_module_dtor"
    internalLinkage := true
    blocks := [[{ kind := .dirCall .call PRINT_UNSAFE_COVERAGE_STATS_FN [] },
                { kind := .plain .ret }]] }

/-- `DynamicLineCountPass::run` (no `CARGO_PRIMARY_PACKAGE` check exists in
this pass): declare the three runtime helpers unconditionally, collect and
instrument, then add the registration constructor when any key was collected
and the statistics destructor when anything was modified. -/
def DynamicLineCountPass.run (m : IRModule) : IRModule × Bool :=
  let m1 := ((m.getOrInsertFunction REGISTER_UNSAFE_LINE_FN).getOrInsertFunction
      TRACK_UNSAFE_LINE_EXECUTION_FN).getOrInsertFunction PRINT_UNSAFE_COVERAGE_STATS_FN
  let p := dlcFunctions [] m1.functions
  let m2 := { m1 with functions := p.1 }
  let withCtor := !p.2.1.isEmpty
  let m3 :=
    if withCtor then
      { m2 with
          functions := m2.functions ++ [dlcCtorFunc p.2.1]
          ctors := m2.ctors ++ [("unsafe_lines_module_ctor", 0)] }
    else m2
  let modified := p.2.2 || withCtor
  let m4 :=
    if modified then
      { m3 with
          functions := m3.functions ++ [dlcDtorFunc]
          dtors := m3.dtors ++ [("unsafe_lines_module_dtor", 0)] }
    else m3
  (m4, modified)

/-! ## Module-level wrappers for the function passes

The pass manager runs a function pass over every function definition of the
module; these wrappers model that (declarations have no body and are left
as-is by each pass, so mapping over all functions is equivalent), together
with the runtime declarations HeapTracker inserts into its parent module. -/

/-- MarkerPlanter over a whole module. -/
def instMarkerModule (primary : Bool) (m : IRModule) : IRModule × Bool :=
  if !primary then (m, false)
  else
    ({ m with functions := m.functions.map fun f => (InstMarkerPass.run primary f).1 },
     m.functions.any fun f => (InstMarkerPass.run primary f).2)

/-- InstructionCounter over a whole module. -/
def instCounterModule (primary : Bool) (m : IRModule) : IRModule × Bool :=
  if !primary then (m, false)
  else
    ({ m with functions := m.functions.map fun f => (UnsafeInstCounterPass.run primary f).1 },
     m.functions.any fun f => (UnsafeInstCounterPass.run primary f).2)

/-- HeapTracker over a whole module: the first instrumented function's run
declares the two runtime helpers in the module. -/
def heapTrackerModule (primary : Bool) (m : IRModule) : IRModule × Bool :=
  if !primary then (m, false)
  else
    let m1 :=
      if m.functions.any fun f => !f.isDeclaration then
        (m.getOrInsertFunction DYN_MEM_ACCESS_FN).getOrInsertFunction DYN_UNSAFE_MEM_ACCESS_FN
      else m
    ({ m1 with functions := m1.functions.map fun f =>
        if f.isDeclaration then f else (HeapTrackerPass.run primary f).1 },
     false)

/-! ## Spec-side predicates and observables -/

/-- No marker sentinel occurs in the list. -/
def markerFree (l : List Inst) : Bool := l.all fun i => !isMarkerInst i

/-- The sequence of marker tags of a block, in order: `true` for each begin
sentinel, `false` for each end sentinel. -/
def markerTags (l : List Inst) : List Bool :=
  l.filterMap fun i =>
    if isMarkerBegin i then some true
    else if isMarkerEnd i then some false
    else none

/-- Is a tag sequence strictly interleaved (begin, end, begin, end, …) from
the given region state, closing every region? -/
def altFrom : Bool → List Bool → Bool
  | false, [] => true
  | true, [] => false
  | false, t :: r => if t then altFrom true r else false
  | true, t :: r => if t then false else altFrom false r

/-- The marker-balance invariant of the spec for one block: begins and ends
strictly alternate starting with a begin and every begin is closed. -/
def balancedBlock (l : List Inst) : Bool := altFrom false (markerTags l)

/-- Every block of every function of the module is marker-balanced. -/
def moduleBalanced (m : IRModule) : Bool :=
  m.functions.all fun f => f.blocks.all balancedBlock

/-- No marker sentinel anywhere in the module. -/
def moduleMarkerFree (m : IRModule) : Bool :=
  m.functions.all fun f => f.blocks.all markerFree

/-- Does an end sentinel stand immediately after the last `unsafe_inst`
instruction of the block? (`false` when no instruction at all follows the
last unsafe instruction, or when the block has no unsafe instruction.) -/
def endAfterLastUnsafe (l : List Inst) : Bool :=
  if l.any (fun i => i.hasUnsafeInstMD) then
    match (l.reverse.takeWhile notUnsafeMD).reverse with
    | e :: _ => isMarkerEnd e
    | [] => false
  else false

/-- Is the second-to-last instruction an end sentinel? -/
def secondToLastIsEnd (l : List Inst) : Bool :=
  match l.reverse with
  | _ :: e :: _ => isMarkerEnd e
  | _ => false

/-- Number of terminator instructions in a block. -/
def termCount (l : List Inst) : Nat := (l.filter fun i => i.isTerm).length

/-- Does the block end in a terminator (and is nonempty)? -/
def endsWithTerm (l : List Inst) : Bool :=
  match l.getLast? with
  | some i => i.isTerm
  | none => false

/-- The number of instructions of a block that InstructionCounter counts:
everything except marker sentinels and debug intrinsics. -/
def countedCount (b : List Inst) : Nat :=
  (b.filter fun i => !i.isDbgIntrinsic && !isMarkerInst i).length

/-- Modelled from the spec: the ideal (unbounded) counter step — the same
scan as `analyzeStep` with mathematical integers in place of the fixed-width
`uint32_t`/`uint16_t` counters. -/
def idealStep (s : BlockCounts × Bool) (i : Inst) : BlockCounts × Bool :=
  if i.isDbgIntrinsic then s
  else if isMarkerBegin i then (s.1, true)
  else if isMarkerEnd i then (s.1, false)
  else
    let c1 := { s.1 with totalInsts := s.1.totalInsts + 1 }
    if s.2 then
      (bumpCategoryIdeal
        { c1 with totalUnsafeInsts := c1.totalUnsafeInsts + 1 }
        (getUnsafeCategory i.opcode), s.2)
    else (c1, s.2)
where
  bumpCategoryIdeal (c : BlockCounts) : UnsafeCategory → BlockCounts
    | .uLoad => { c with cntLoad := c.cntLoad + 1 }
    | .uStore => { c with cntStore := c.cntStore + 1 }
    | .uCall => { c with cntCall := c.cntCall + 1 }
    | .uCast => { c with cntCast := c.cntCast + 1 }
    | .uGep => { c with cntGep := c.cntGep + 1 }
    | .uOther => { c with cntOther := c.cntOther + 1 }

/-- Modelled from the spec: the ideal count vector of a block. -/
def idealCounts (b : List Inst) : BlockCounts :=
  (b.foldl idealStep ({}, false)).1

/-- The sum of the six category counters. -/
def sumCats (c : BlockCounts) : Nat :=
  c.cntLoad + c.cntStore + c.cntCall + c.cntCast + c.cntGep + c.cntOther

mutual
/-- Modelled from the spec (C9): does the block contain an instruction
carrying `unsafe_inst` that lies between a begin sentinel and the next end
sentinel of the same block?  This scans outside any region. -/
def specQualOut : List Inst → Bool
  | [] => false
  | i :: rest =>
    if isMarkerBegin i then specQualIn rest
    else specQualOut rest

/-- Modelled from the spec (C9): scan inside an open region, which must still
be closed by an end sentinel for its instructions to qualify. -/
def specQualIn : List Inst → Bool
  | [] => false
  | i :: rest =>
    if isMarkerEnd i then specQualOut rest
    else if i.hasUnsafeInstMD && rest.any isMarkerEnd then true
    else specQualIn rest
end

/-- Modelled from the spec (C9): the function-level predicate, per block. -/
def specHasUnsafeInRegion (F : Func) : Bool :=
  F.blocks.any specQualOut

/-- Is an instruction a direct call to the named function? -/
def isCallTo (fname : String) (i : Inst) : Bool :=
  match i.kind with
  | .dirCall _ callee _ => callee = fname
  | _ => false

/-- Does an instruction define an SSA value while being a call to
`external_call_start`? -/
def isExtStart (i : Inst) : Bool := isCallTo EXTERNAL_CALL_START_FN i

/-- Every `external_call_start` call of the block is immediately followed by
an instruction satisfying `good` (the wrapped call site). -/
def startsOk (good : Inst → Bool) : List Inst → Bool
  | [] => true
  | i :: rest =>
    if isExtStart i then
      (match rest with
       | c :: _ => good c
       | [] => false) && startsOk good rest
    else startsOk good rest

/-! ## Concrete instances used by witnesses and counterexamples -/

def retI : Inst := { kind := .plain .ret }
def loadI : Inst := { kind := .plain .load }
def storeU : Inst := { kind := .plain .store, hasUnsafeInstMD := true }
def retU : Inst := { kind := .plain .ret, hasUnsafeInstMD := true }
def loadU : Inst := { kind := .plain .load, hasUnsafeInstMD := true }

/-- The empty module. -/
def emptyM : IRModule := {}

/-- C3's counterexample block: the last `unsafe_inst` instruction is the
block terminator. -/
def bC3 : List Inst := [storeU, retU]

/-- The C2 counterexample module: `main` calls the runtime helper
`__unsafe_record_block`, which is declared (body-less) in the module. -/
def recBlockCallSite : Inst := { kind := .dirCall .call RECORD_BLOCK_FN [Arg.int 0] }

def mainFuncC2 : Func := { name := "main", blocks := [[recBlockCallSite, retI]] }

def mExtCex : IRModule :=
  { functions := [mainFuncC2, { name := RECORD_BLOCK_FN, isDeclaration := true }] }

/-- A small well-formed primary-build module with one marked unsafe region,
used by several witnesses. -/
def fMarked : Func :=
  { name := "main", blocks := [[mkMarkerBegin, loadU, mkMarkerEnd, retI]] }

def mMarked : IRModule := { functions := [fMarked] }

/-- C7's counterexample block: 65536 loads inside one marker region overflow
the 16-bit load counter while the 32-bit unsafe total does not wrap. -/
def bbC7 : List Inst :=
  mkMarkerBegin :: (List.replicate 65536 loadI ++ [mkMarkerEnd, retI])

/-- Is the block's last instruction (its terminator, in a well-formed block)
an `unsafe_inst` instruction? -/
def lastIsUnsafe (l : List Inst) : Bool :=
  match l.getLast? with
  | some t => t.hasUnsafeInstMD
  | none => false

/-- The instruction immediately after the first begin sentinel. -/
def afterFirstBegin (l : List Inst) : Option Inst :=
  ((l.dropWhile fun i => !isMarkerBegin i).tail).head?

/-- The instruction after the first begin sentinel is either an `unsafe_inst`
instruction or (in the degenerate single-unsafe-terminator case) the end
sentinel. -/
def beginAdjacencyOk (l : List Inst) : Bool :=
  match afterFirstBegin l with
  | some u => u.hasUnsafeInstMD || isMarkerEnd u
  | none => false

/-- The prefix of a block before its first `unsafe_inst` instruction. -/
def mpPre (b : List Inst) : List Inst := b.takeWhile notUnsafeMD

/-- The suffix of a block after its last `unsafe_inst` instruction. -/
def mpPost (b : List Inst) : List Inst := (b.reverse.takeWhile notUnsafeMD).reverse

/-- The prefix of a block up to and including its last `unsafe_inst`
instruction. -/
def mpCore (b : List Inst) : List Inst := (b.reverse.dropWhile notUnsafeMD).reverse

/-- The segment of a block from its first to its last `unsafe_inst`
instruction. -/
def mpSpan (b : List Inst) : List Inst := (mpCore b).dropWhile notUnsafeMD

/-- The `__unsafe_metadata_table` global as FunctionTracker emits it. -/
def metadataTableGlobal (recs : List (Nat × Nat × Nat × Nat)) : GlobalVar :=
  { name := "__unsafe_metadata_table", payload := .metaTable recs }

/-- Truncate every counter of an ideal (unbounded) count vector to its
machine width: the two totals to `uint32_t`, the six categories to
`uint16_t`. -/
def reduceCounts (c : BlockCounts) : BlockCounts :=
  { totalInsts := c.totalInsts % 2 ^ 32
    totalUnsafeInsts := c.totalUnsafeInsts % 2 ^ 32
    cntLoad := c.cntLoad % 2 ^ 16
    cntStore := c.cntStore % 2 ^ 16
    cntCall := c.cntCall % 2 ^ 16
    cntCast := c.cntCast % 2 ^ 16
    cntGep := c.cntGep % 2 ^ 16
    cntOther := c.cntOther % 2 ^ 16 }

/-- `fMarked` with the function id `0` attached, as FunctionTracker leaves it
for InstructionCounter. -/
def fC8 : Func :=
  { name := "main", funcIdMD := some 0
    blocks := [[mkMarkerBegin, loadU, mkMarkerEnd, retI]] }

/-! # Theorems

First, general helper lemmas; the claim theorems and their witnesses follow,
one claim at a time. -/

theorem captureInst_hasU (i : Inst) :
    (captureInst i).hasUnsafeInstMD = i.hasUnsafeInstMD := by
  unfold captureInst
  split
  · split
    · split <;> rfl
    · rfl
  · rfl

theorem captureInst_kind (i : Inst) : (captureInst i).kind = i.kind := by
  unfold captureInst
  split
  · split
    · split <;> rfl
    · rfl
  · rfl

theorem captureInst_isDbg (i : Inst) :
    (captureInst i).isDbgIntrinsic = i.isDbgIntrinsic := by
  unfold captureInst
  split
  · split
    · split <;> rfl
    · rfl
  · rfl

theorem isMarkerBegin_capture (i : Inst) :
    isMarkerBegin (captureInst i) = isMarkerBegin i := by
  unfold isMarkerBegin
  rw [captureInst_kind]

theorem isMarkerEnd_capture (i : Inst) :
    isMarkerEnd (captureInst i) = isMarkerEnd i := by
  unfold isMarkerEnd
  rw [captureInst_kind]

theorem isMarkerInst_capture (i : Inst) :
    isMarkerInst (captureInst i) = isMarkerInst i := by
  unfold isMarkerInst
  rw [isMarkerBegin_capture, isMarkerEnd_capture]

theorem isTerm_capture (i : Inst) : (captureInst i).isTerm = i.isTerm := by
  unfold Inst.isTerm Inst.opcode
  rw [captureInst_kind]

theorem notUnsafeMD_capture (i : Inst) :
    notUnsafeMD (captureInst i) = notUnsafeMD i := by
  unfold notUnsafeMD
  rw [captureInst_hasU]

@[simp] theorem isMarkerBegin_mkBegin : isMarkerBegin mkMarkerBegin = true := by decide

@[simp] theorem isMarkerEnd_mkEnd : isMarkerEnd mkMarkerEnd = true := by decide

@[simp] theorem isMarkerEnd_mkBegin : isMarkerEnd mkMarkerBegin = false := by decide

@[simp] theorem isMarkerBegin_mkEnd : isMarkerBegin mkMarkerEnd = false := by decide

@[simp] theorem notUnsafeMD_mkBegin : notUnsafeMD mkMarkerBegin = true := by decide

@[simp] theorem notUnsafeMD_mkEnd : notUnsafeMD mkMarkerEnd = true := by decide

theorem takeWhile_append_of_exists {α : Type} (p : α → Bool) (l1 l2 : List α)
    (h : ∃ x ∈ l1, p x = false) : (l1 ++ l2).takeWhile p = l1.takeWhile p := by
  induction l1 with
  | nil =>
    obtain ⟨x, hx, _⟩ := h
    exact absurd hx (List.not_mem_nil x)
  | cons a t ih =>
    by_cases ha : p a = true
    · rw [List.cons_append, List.takeWhile_cons, ha, List.takeWhile_cons, ha]
      rw [ih]
      obtain ⟨x, hx, hpx⟩ := h
      rcases List.mem_cons.mp hx with rfl | hxt
      · rw [ha] at hpx; cases hpx
      · exact ⟨x, hxt, hpx⟩
    · rw [List.cons_append, List.takeWhile_cons, eq_false_of_ne_true ha,
        List.takeWhile_cons, eq_false_of_ne_true ha]
      simp

theorem takeWhile_append_all {α : Type} (p : α → Bool) (l1 l2 : List α)
    (h : ∀ x ∈ l1, p x = true) : (l1 ++ l2).takeWhile p = l1 ++ l2.takeWhile p := by
  induction l1 with
  | nil => simp
  | cons a t ih =>
    rw [List.cons_append, List.takeWhile_cons, h a (List.mem_cons_self a t), List.cons_append]
    simp only [if_pos trivial]
    rw [ih fun x hx => h x (List.mem_cons_of_mem a hx)]

theorem dropWhile_ne_nil_of_mem {α : Type} {p : α → Bool} {l : List α} {x : α}
    (hx : x ∈ l) (hpx : p x = false) : l.dropWhile p ≠ [] := by
  induction l with
  | nil => cases hx
  | cons a t ih =>
    rw [List.dropWhile_cons]
    rcases List.mem_cons.mp hx with rfl | hxt
    · rw [hpx]; simp
    · by_cases ha : p a = true
      · rw [ha]; simpa using ih hxt
      · rw [eq_false_of_ne_true ha]; simp

theorem head?_dropWhile_false {α : Type} (p : α → Bool) (l : List α) {x : α}
    (h : (l.dropWhile p).head? = some x) : p x = false := by
  induction l with
  | nil => cases h
  | cons a t ih =>
    rw [List.dropWhile_cons] at h
    by_cases ha : p a = true
    · rw [ha] at h; simp at h; exact ih h
    · rw [eq_false_of_ne_true ha] at h
      simp at h
      rw [← h]; exact eq_false_of_ne_true ha

theorem dropLast_append_drop_pred {α : Type} (l : List α) :
    l.dropLast ++ l.drop (l.length - 1) = l := by
  rw [List.dropLast_eq_take, List.take_append_drop]

/-! ### MarkerPlanter decomposition facts -/

theorem mpCore_append_mpPost (b : List Inst) : mpCore b ++ mpPost b = b := by
  unfold mpCore mpPost
  rw [← List.reverse_append, List.takeWhile_append_dropWhile, List.reverse_reverse]

theorem mpPost_notUnsafeMD (b : List Inst) :
    ∀ i ∈ mpPost b, i.hasUnsafeInstMD = false := by
  intro i hi
  unfold mpPost at hi
  have := List.mem_takeWhile_imp (List.mem_reverse.mp hi)
  unfold notUnsafeMD at this
  simpa using this

theorem mpPre_not_unsafe (b : List Inst) :
    ∀ i ∈ mpPre b, i.hasUnsafeInstMD = false := by
  intro i hi
  have := List.mem_takeWhile_imp hi
  unfold notUnsafeMD at this
  simpa using this

theorem exists_unsafe_mem_mpCore (b : List Inst)
    (hu : b.any (fun i => i.hasUnsafeInstMD) = true) :
    ∃ u ∈ mpCore b, u.hasUnsafeInstMD = true := by
  obtain ⟨u, hu1, hu2⟩ := List.any_eq_true.mp hu
  refine ⟨u, ?_, hu2⟩
  have hsplit : u ∈ mpCore b ++ mpPost b := by rw [mpCore_append_mpPost]; exact hu1
  rcases List.mem_append.mp hsplit with h | h
  · exact h
  · exact absurd hu2 (by rw [mpPost_notUnsafeMD b u h]; simp)

theorem mpPre_append_mpSpan (b : List Inst)
    (hu : b.any (fun i => i.hasUnsafeInstMD) = true) :
    mpPre b ++ mpSpan b = mpCore b := by
  obtain ⟨u, hmem, hu2⟩ := exists_unsafe_mem_mpCore b hu
  have hpre : mpPre b = (mpCore b).takeWhile notUnsafeMD := by
    unfold mpPre
    conv_lhs => rw [← mpCore_append_mpPost b]
    exact takeWhile_append_of_exists _ _ _ ⟨u, hmem, by unfold notUnsafeMD; rw [hu2]; rfl⟩
  rw [hpre]
  unfold mpSpan
  exact List.takeWhile_append_dropWhile ..

theorem mpSpan_head (b : List Inst)
    (hu : b.any (fun i => i.hasUnsafeInstMD) = true) :
    ∃ u t, mpSpan b = u :: t ∧ u.hasUnsafeInstMD = true := by
  obtain ⟨u0, hmem, hu2⟩ := exists_unsafe_mem_mpCore b hu
  have hne : mpSpan b ≠ [] := by
    unfold mpSpan
    exact dropWhile_ne_nil_of_mem hmem (by unfold notUnsafeMD; rw [hu2]; rfl)
  obtain ⟨u, t, ht⟩ := List.exists_cons_of_ne_nil hne
  refine ⟨u, t, ht, ?_⟩
  have : ((mpCore b).dropWhile notUnsafeMD).head? = some u := by
    unfold mpSpan at ht; rw [ht]; rfl
  have hp := head?_dropWhile_false notUnsafeMD (mpCore b) this
  unfold notUnsafeMD at hp
  simpa using hp

theorem mpSpan_last (b : List Inst)
    (hu : b.any (fun i => i.hasUnsafeInstMD) = true) :
    ∃ f u, mpSpan b = f ++ [u] ∧ u.hasUnsafeInstMD = true := by
  obtain ⟨u0, hmem0, hu0⟩ := List.any_eq_true.mp hu
  have hrev : u0 ∈ b.reverse := List.mem_reverse.mpr hmem0
  have hne : b.reverse.dropWhile notUnsafeMD ≠ [] :=
    dropWhile_ne_nil_of_mem hrev (by unfold notUnsafeMD; rw [hu0]; rfl)
  obtain ⟨w, t, ht⟩ := List.exists_cons_of_ne_nil hne
  have hw : w.hasUnsafeInstMD = true := by
    have : (b.reverse.dropWhile notUnsafeMD).head? = some w := by rw [ht]; rfl
    have hp := head?_dropWhile_false notUnsafeMD b.reverse this
    unfold notUnsafeMD at hp
    simpa using hp
  have hcore : mpCore b = t.reverse ++ [w] := by
    unfold mpCore
    rw [ht]
    simp
  have hspan_ne : mpSpan b ≠ [] := by
    obtain ⟨u, t', ht'⟩ := mpSpan_head b hu
    rw [ht'.1]; simp
  have hlast : (mpSpan b).getLast? = some w := by
    have h1 : (mpCore b).getLast? = some w := by
      rw [hcore]
      rw [List.getLast?_append_of_ne_nil _ (by simp)]
      rfl
    have h2 : (mpPre b ++ mpSpan b).getLast? = (mpSpan b).getLast? :=
      List.getLast?_append_of_ne_nil _ hspan_ne
    rw [mpPre_append_mpSpan b hu] at h2
    rw [← h2, h1]
  refine ⟨(mpSpan b).dropLast, w, ?_, hw⟩
  have hdl := List.dropLast_append_getLast hspan_ne
  rw [List.getLast?_eq_getLast _ hspan_ne] at hlast
  simp at hlast
  rw [hlast] at hdl
  exact hdl.symm

theorem mpPost_empty_iff (b : List Inst)
    (hu : b.any (fun i => i.hasUnsafeInstMD) = true) :
    (mpPost b = [] ↔ lastIsUnsafe b = true) := by
  have hbne : b ≠ [] := by
    obtain ⟨u, hm, _⟩ := List.any_eq_true.mp hu
    exact List.ne_nil_of_mem hm
  have hrne : b.reverse ≠ [] := by simpa using hbne
  obtain ⟨t, r, hr⟩ := List.exists_cons_of_ne_nil hrne
  have hlast : b.getLast? = some t := by
    rw [← List.head?_reverse, hr]; rfl
  unfold mpPost lastIsUnsafe
  rw [hr, hlast, List.takeWhile_cons]
  by_cases htu : t.hasUnsafeInstMD = true
  · have hn : notUnsafeMD t = false := by unfold notUnsafeMD; rw [htu]; rfl
    rw [hn]
    simpa using htu
  · have hn : notUnsafeMD t = true := by
      unfold notUnsafeMD
      rw [eq_false_of_ne_true htu]
      rfl
    rw [hn]
    constructor
    · intro h; simp at h
    · intro h; exact absurd h htu

theorem markBlock_eq (b : List Inst) :
    markBlock b =
      if b.any (fun i => i.hasUnsafeInstMD) then
        if (mpPost b).isEmpty then
          mpPre b ++ mkMarkerBegin ::
            ((mpSpan b).dropLast ++ mkMarkerEnd :: (mpSpan b).drop ((mpSpan b).length - 1))
        else mpPre b ++ mkMarkerBegin :: (mpSpan b ++ mkMarkerEnd :: mpPost b)
      else b := by
  rfl

theorem markerTags_append (l1 l2 : List Inst) :
    markerTags (l1 ++ l2) = markerTags l1 ++ markerTags l2 :=
  List.filterMap_append l1 l2 _

theorem markerTags_cons (i : Inst) (l : List Inst) :
    markerTags (i :: l) =
      if isMarkerBegin i then true :: markerTags l
      else if isMarkerEnd i then false :: markerTags l
      else markerTags l := by
  unfold markerTags
  rw [List.filterMap_cons]
  by_cases h1 : isMarkerBegin i = true
  · rw [h1]; simp
  · rw [eq_false_of_ne_true h1]
    by_cases h2 : isMarkerEnd i = true
    · rw [h2]; simp
    · rw [eq_false_of_ne_true h2]; simp

theorem markerFree_iff (l : List Inst) :
    markerFree l = true ↔ ∀ i ∈ l, isMarkerInst i = false := by
  unfold markerFree
  rw [List.all_eq_true]
  constructor <;> intro h i hi <;> have := h i hi <;> simpa using this

theorem markerTags_nil_of_free (l : List Inst) (h : ∀ i ∈ l, isMarkerInst i = false) :
    markerTags l = [] := by
  induction l with
  | nil => rfl
  | cons a t ih =>
    have ha := h a (List.mem_cons_self a t)
    have h1 : isMarkerBegin a = false := by
      unfold isMarkerInst at ha
      exact (Bool.or_eq_false_iff.mp ha).1
    have h2 : isMarkerEnd a = false := by
      unfold isMarkerInst at ha
      exact (Bool.or_eq_false_iff.mp ha).2
    rw [markerTags_cons, h1, h2]
    simp only [Bool.false_eq_true, if_false]
    exact ih fun i hi => h i (List.mem_cons_of_mem a hi)

theorem mem_mpPre (b : List Inst) : ∀ i ∈ mpPre b, i ∈ b := fun _ hi =>
  (List.takeWhile_prefix _).subset hi

theorem mem_mpPost (b : List Inst) : ∀ i ∈ mpPost b, i ∈ b := by
  intro i hi
  unfold mpPost at hi
  have := (List.takeWhile_prefix (l := b.reverse) notUnsafeMD).subset
    (List.mem_reverse.mp hi)
  exact List.mem_reverse.mp this

theorem mem_mpCore (b : List Inst) : ∀ i ∈ mpCore b, i ∈ b := by
  intro i hi
  unfold mpCore at hi
  have := (List.dropWhile_suffix (l := b.reverse) notUnsafeMD).subset
    (List.mem_reverse.mp hi)
  exact List.mem_reverse.mp this

theorem mem_mpSpan (b : List Inst) : ∀ i ∈ mpSpan b, i ∈ b := by
  intro i hi
  unfold mpSpan at hi
  exact mem_mpCore b i ((List.dropWhile_suffix notUnsafeMD).subset hi)

theorem markBlock_tags (c : List Inst)
    (hu : c.any (fun i => i.hasUnsafeInstMD) = true)
    (hm : markerFree c = true) :
    markerTags (markBlock c) = [true, false] := by
  have hmem := (markerFree_iff c).mp hm
  have hpre : markerTags (mpPre c) = [] :=
    markerTags_nil_of_free _ fun i hi => hmem i (mem_mpPre c i hi)
  have hspan : markerTags (mpSpan c) = [] :=
    markerTags_nil_of_free _ fun i hi => hmem i (mem_mpSpan c i hi)
  have hpost : markerTags (mpPost c) = [] :=
    markerTags_nil_of_free _ fun i hi => hmem i (mem_mpPost c i hi)
  have hdl : markerTags (mpSpan c).dropLast = [] :=
    markerTags_nil_of_free _ fun i hi =>
      hmem i (mem_mpSpan c i (List.dropLast_subset _ hi))
  have hdr : markerTags ((mpSpan c).drop ((mpSpan c).length - 1)) = [] :=
    markerTags_nil_of_free _ fun i hi =>
      hmem i (mem_mpSpan c i (List.drop_subset _ _ hi))
  rw [markBlock_eq, if_pos hu]
  by_cases hp : (mpPost c).isEmpty = true
  · rw [if_pos hp]
    simp [markerTags_append, markerTags_cons, hpre, hdl, hdr]
  · rw [if_neg hp]
    simp [markerTags_append, markerTags_cons, hpre, hspan, hpost]

theorem markBlock_filter (c : List Inst)
    (hu : c.any (fun i => i.hasUnsafeInstMD) = true)
    (hm : markerFree c = true) :
    (markBlock c).filter (fun i => !isMarkerInst i) = c := by
  have hmem := (markerFree_iff c).mp hm
  have hself : ∀ l : List Inst, (∀ i ∈ l, i ∈ c) →
      l.filter (fun i => !isMarkerInst i) = l := by
    intro l hl
    refine List.filter_eq_self.mpr fun i hi => ?_
    rw [hmem i (hl i hi)]
    rfl
  have hpreF := hself (mpPre c) (mem_mpPre c)
  have hspanF := hself (mpSpan c) (mem_mpSpan c)
  have hpostF := hself (mpPost c) (mem_mpPost c)
  have hdlF := hself (mpSpan c).dropLast fun i hi =>
    mem_mpSpan c i (List.dropLast_subset _ hi)
  have hdrF := hself ((mpSpan c).drop ((mpSpan c).length - 1)) fun i hi =>
    mem_mpSpan c i (List.drop_subset _ _ hi)
  have hdecomp : mpPre c ++ mpSpan c ++ mpPost c = c := by
    rw [mpPre_append_mpSpan c hu, mpCore_append_mpPost]
  rw [markBlock_eq, if_pos hu]
  by_cases hp : (mpPost c).isEmpty = true
  · rw [if_pos hp]
    have hpostnil : mpPost c = [] := by simpa using hp
    have hdecomp2 : mpPre c ++ mpSpan c = c := by
      rw [hpostnil, List.append_nil] at hdecomp
      exact hdecomp
    simp only [List.filter_append, List.filter_cons, hpreF, hdlF, hdrF,
      show (!isMarkerInst mkMarkerBegin) = false by decide,
      show (!isMarkerInst mkMarkerEnd) = false by decide,
      Bool.false_eq_true, if_false]
    rw [dropLast_append_drop_pred]
    exact hdecomp2
  · rw [if_neg hp]
    simp only [List.filter_append, List.filter_cons, hpreF, hspanF, hpostF,
      show (!isMarkerInst mkMarkerBegin) = false by decide,
      show (!isMarkerInst mkMarkerEnd) = false by decide,
      Bool.false_eq_true, if_false]
    rw [← List.append_assoc]
    exact hdecomp

theorem dropWhile_append_all {α : Type} (p : α → Bool) (l1 l2 : List α)
    (h : ∀ x ∈ l1, p x = true) : (l1 ++ l2).dropWhile p = l2.dropWhile p := by
  induction l1 with
  | nil => simp
  | cons a t ih =>
    rw [List.cons_append, List.dropWhile_cons, h a (List.mem_cons_self a t)]
    simp only [if_pos trivial]
    exact ih fun x hx => h x (List.mem_cons_of_mem a hx)

theorem markBlock_beginAdj (c : List Inst)
    (hu : c.any (fun i => i.hasUnsafeInstMD) = true)
    (hm : markerFree c = true) :
    beginAdjacencyOk (markBlock c) = true := by
  have hmem := (markerFree_iff c).mp hm
  have hpreB : ∀ x ∈ mpPre c, (!isMarkerBegin x) = true := by
    intro x hx
    have := hmem x (mem_mpPre c x hx)
    unfold isMarkerInst at this
    rw [(Bool.or_eq_false_iff.mp this).1]
    rfl
  obtain ⟨u, t, hspan, hU⟩ := mpSpan_head c hu
  rw [markBlock_eq, if_pos hu]
  by_cases hp : (mpPost c).isEmpty = true
  · rw [if_pos hp]
    unfold beginAdjacencyOk afterFirstBegin
    rw [dropWhile_append_all _ _ _ hpreB, List.dropWhile_cons]
    simp only [isMarkerBegin_mkBegin, Bool.not_true, Bool.false_eq_true, if_false,
      List.tail_cons]
    cases ht : t with
    | nil =>
      rw [hspan, ht]
      simp
    | cons y ys =>
      rw [hspan, ht]
      simp only [List.dropLast_cons₂, List.cons_append, List.head?_cons]
      rw [hU]
      rfl
  · rw [if_neg hp]
    unfold beginAdjacencyOk afterFirstBegin
    rw [dropWhile_append_all _ _ _ hpreB, List.dropWhile_cons]
    simp only [isMarkerBegin_mkBegin, Bool.not_true, Bool.false_eq_true, if_false,
      List.tail_cons]
    rw [hspan]
    simp only [List.cons_append, List.head?_cons]
    rw [hU]
    rfl

theorem markBlock_endAfter (c : List Inst)
    (hu : c.any (fun i => i.hasUnsafeInstMD) = true)
    (hlast : lastIsUnsafe c = false) :
    endAfterLastUnsafe (markBlock c) = true := by
  have hpostne : ¬(mpPost c).isEmpty = true := by
    intro h
    have := (mpPost_empty_iff c hu).mp (by simpa using h)
    rw [this] at hlast
    cases hlast
  obtain ⟨f, w, hspan, hW⟩ := mpSpan_last c hu
  obtain ⟨u, t, hspanh, hU⟩ := mpSpan_head c hu
  rw [markBlock_eq, if_pos hu, if_neg hpostne]
  have hanyU : (mpPre c ++ mkMarkerBegin :: (mpSpan c ++ mkMarkerEnd :: mpPost c)).any
      (fun i => i.hasUnsafeInstMD) = true := by
    refine List.any_eq_true.mpr ⟨u, ?_, hU⟩
    have : u ∈ mpSpan c := by rw [hspanh]; exact List.mem_cons_self u t
    simp [List.mem_append, this]
  unfold endAfterLastUnsafe
  rw [hanyU]
  have hallpost : ∀ x ∈ (mpPost c).reverse ++ [mkMarkerEnd], notUnsafeMD x = true := by
    intro x hx
    rcases List.mem_append.mp hx with h | h
    · have := mpPost_notUnsafeMD c x (List.mem_reverse.mp h)
      unfold notUnsafeMD
      rw [this]
      rfl
    · have : x = mkMarkerEnd := by simpa using h
      rw [this]
      decide
  have hrev : (mpPre c ++ mkMarkerBegin :: (mpSpan c ++ mkMarkerEnd :: mpPost c)).reverse
      = ((mpPost c).reverse ++ [mkMarkerEnd]) ++
        ((mpSpan c).reverse ++ mkMarkerBegin :: (mpPre c).reverse) := by
    simp
  rw [hrev, takeWhile_append_all _ _ _ hallpost]
  have hspanrev : (mpSpan c).reverse = w :: f.reverse := by
    rw [hspan]
    simp
  rw [hspanrev]
  simp only [List.cons_append, List.takeWhile_cons]
  have : notUnsafeMD w = false := by unfold notUnsafeMD; rw [hW]; rfl
  rw [this]
  simp

theorem markBlock_term_case (c : List Inst)
    (hu : c.any (fun i => i.hasUnsafeInstMD) = true)
    (hlast : lastIsUnsafe c = true) :
    secondToLastIsEnd (markBlock c) = true
    ∧ (markBlock c).getLast? = c.getLast? := by
  have hpostnil : mpPost c = [] := (mpPost_empty_iff c hu).mpr hlast
  obtain ⟨f, w, hspan, hW⟩ := mpSpan_last c hu
  have hlen : (mpSpan c).length - 1 = f.length := by rw [hspan]; simp
  have hdrop : (mpSpan c).drop ((mpSpan c).length - 1) = [w] := by
    rw [hlen, hspan, List.drop_left]
  have hdl : (mpSpan c).dropLast = f := by rw [hspan, List.dropLast_concat]
  rw [markBlock_eq, if_pos hu, if_pos (by rw [hpostnil]; rfl)]
  rw [hdrop, hdl]
  constructor
  · unfold secondToLastIsEnd
    have hrev : (mpPre c ++ mkMarkerBegin :: (f ++ mkMarkerEnd :: [w])).reverse
        = w :: mkMarkerEnd :: (f.reverse ++ mkMarkerBegin :: (mpPre c).reverse) := by
      simp
    rw [hrev]
    simp
  · have hout : (mpPre c ++ mkMarkerBegin :: (f ++ mkMarkerEnd :: [w])).getLast?
        = some w := by
      rw [← List.head?_reverse]
      have hrev : (mpPre c ++ mkMarkerBegin :: (f ++ mkMarkerEnd :: [w])).reverse
          = w :: mkMarkerEnd :: (f.reverse ++ mkMarkerBegin :: (mpPre c).reverse) := by
        simp
      rw [hrev]
      rfl
    rw [hout]
    have hc : c = mpPre c ++ mpSpan c := by
      have h1 := mpPre_append_mpSpan c hu
      have h2 := mpCore_append_mpPost c
      rw [hpostnil, List.append_nil] at h2
      rw [h2] at h1
      exact h1.symm
    rw [hc, List.getLast?_append_of_ne_nil _ (by rw [hspan]; simp), hspan,
      List.getLast?_append_of_ne_nil _ (by simp)]
    rfl

theorem termCount_append (l1 l2 : List Inst) :
    termCount (l1 ++ l2) = termCount l1 + termCount l2 := by
  unfold termCount
  rw [List.filter_append, List.length_append]

theorem termCount_cons_marker (i : Inst) (l : List Inst) (h : isMarkerInst i = true) :
    termCount (i :: l) = termCount l := by
  unfold termCount
  rw [List.filter_cons]
  have : i.isTerm = false := by
    unfold isMarkerInst at h
    unfold Inst.isTerm Inst.opcode
    rcases Bool.or_eq_true_iff.mp h with hb | hb
    · unfold isMarkerBegin at hb
      rcases hk : i.kind with _ | s | _ | _ <;> rw [hk] at hb <;> try cases hb
      rfl
    · unfold isMarkerEnd at hb
      rcases hk : i.kind with _ | s | _ | _ <;> rw [hk] at hb <;> try cases hb
      rfl
  rw [this]
  simp

theorem markBlock_termCount (c : List Inst)
    (hu : c.any (fun i => i.hasUnsafeInstMD) = true) :
    termCount (markBlock c) = termCount c := by
  have hdecomp : mpPre c ++ mpSpan c ++ mpPost c = c := by
    rw [mpPre_append_mpSpan c hu, mpCore_append_mpPost]
  rw [markBlock_eq, if_pos hu]
  by_cases hp : (mpPost c).isEmpty = true
  · rw [if_pos hp]
    have hpostnil : mpPost c = [] := by simpa using hp
    rw [hpostnil, List.append_nil] at hdecomp
    rw [termCount_append, termCount_cons_marker _ _ (by decide), termCount_append,
      termCount_cons_marker _ _ (by decide)]
    have hrhs : termCount c = termCount (mpPre c) + termCount (mpSpan c) := by
      conv_lhs => rw [← hdecomp]
      rw [termCount_append]
    have hparts : termCount ((mpSpan c).dropLast)
        + termCount ((mpSpan c).drop ((mpSpan c).length - 1)) = termCount (mpSpan c) := by
      rw [← termCount_append, dropLast_append_drop_pred]
    rw [hrhs]
    omega
  · rw [if_neg hp]
    rw [termCount_append, termCount_cons_marker _ _ (by decide), termCount_append,
      termCount_cons_marker _ _ (by decide)]
    have hrhs : termCount c
        = termCount (mpPre c) + (termCount (mpSpan c) + termCount (mpPost c)) := by
      conv_lhs => rw [← hdecomp]
      rw [List.append_assoc, termCount_append, termCount_append]
    rw [hrhs]

theorem cap_any_unsafeMD (b : List Inst) :
    (b.map captureInst).any (fun i => i.hasUnsafeInstMD)
      = b.any (fun i => i.hasUnsafeInstMD) := by
  induction b with
  | nil => rfl
  | cons a t ih => simp [captureInst_hasU, ih]

theorem cap_markerFree (b : List Inst) :
    markerFree (b.map captureInst) = markerFree b := by
  induction b with
  | nil => rfl
  | cons a t ih =>
    unfold markerFree at *
    simp [isMarkerInst_capture, ih]

theorem cap_lastIsUnsafe (b : List Inst) :
    lastIsUnsafe (b.map captureInst) = lastIsUnsafe b := by
  unfold lastIsUnsafe
  induction b with
  | nil => rfl
  | cons a t ih =>
    cases t with
    | nil => simp [captureInst_hasU]
    | cons y ys =>
      rw [List.map_cons, List.getLast?_cons_cons, List.map_cons,
        List.getLast?_cons_cons] at *
      exact ih

theorem cap_endsWithTerm (b : List Inst) :
    endsWithTerm (b.map captureInst) = endsWithTerm b := by
  unfold endsWithTerm
  induction b with
  | nil => rfl
  | cons a t ih =>
    cases t with
    | nil => simp [isTerm_capture]
    | cons y ys =>
      rw [List.map_cons, List.getLast?_cons_cons, List.map_cons,
        List.getLast?_cons_cons] at *
      exact ih

theorem cap_termCount (b : List Inst) :
    termCount (b.map captureInst) = termCount b := by
  unfold termCount
  induction b with
  | nil => rfl
  | cons a t ih =>
    rw [List.map_cons, List.filter_cons, List.filter_cons, isTerm_capture]
    by_cases h : a.isTerm = true
    · rw [h]
      simp only [if_pos trivial, List.length_cons]
      omega
    · rw [eq_false_of_ne_true h]
      simpa using ih

/-- **C3 (amended).** After MarkerPlanter runs on a primary-build function,
in every basic block that contained no pre-existing sentinels and at least one
`unsafe_inst` instruction: the markers form exactly one begin/end pair in
strictly interleaved order; erasing the two sentinels recovers the block (so
instructions between them, `unsafe_inst` or not, belong to the single run);
the begin sentinel stands immediately before the first `unsafe_inst`
instruction (or, when the sole unsafe instruction is the terminator,
immediately before the end sentinel); and the end sentinel stands immediately
after the last `unsafe_inst` instruction — except when that instruction is
the block terminator, in which case the end sentinel stands immediately
before the block's last instruction. -/
theorem claim_C3_amended (b : List Inst)
    (hm : markerFree b = true)
    (hu : b.any (fun i => i.hasUnsafeInstMD) = true) :
    markerTags (markerPlantBlock b) = [true, false]
    ∧ (markerPlantBlock b).filter (fun i => !isMarkerInst i) = b.map captureInst
    ∧ beginAdjacencyOk (markerPlantBlock b) = true
    ∧ (lastIsUnsafe b = false → endAfterLastUnsafe (markerPlantBlock b) = true)
    ∧ (lastIsUnsafe b = true → secondToLastIsEnd (markerPlantBlock b) = true) := by
  have hu' : (b.map captureInst).any (fun i => i.hasUnsafeInstMD) = true := by
    rw [cap_any_unsafeMD]; exact hu
  have hm' : markerFree (b.map captureInst) = true := by
    rw [cap_markerFree]; exact hm
  unfold markerPlantBlock
  refine ⟨markBlock_tags _ hu' hm', markBlock_filter _ hu' hm',
    markBlock_beginAdj _ hu' hm', fun h => ?_, fun h => ?_⟩
  · exact markBlock_endAfter _ hu' (by rw [cap_lastIsUnsafe]; exact h)
  · exact (markBlock_term_case _ hu' (by rw [cap_lastIsUnsafe]; exact h)).1

/-- Witness for C3 (amended) at the concrete block `[loadU, retI]`. -/
theorem claim_C3_amended_witness :
    (markerFree [loadU, retI] = true
      ∧ ([loadU, retI].any fun i => i.hasUnsafeInstMD) = true)
    ∧ (markerTags (markerPlantBlock [loadU, retI]) = [true, false]
      ∧ (markerPlantBlock [loadU, retI]).filter (fun i => !isMarkerInst i)
          = [loadU, retI].map captureInst
      ∧ beginAdjacencyOk (markerPlantBlock [loadU, retI]) = true
      ∧ (lastIsUnsafe [loadU, retI] = false →
          endAfterLastUnsafe (markerPlantBlock [loadU, retI]) = true)
      ∧ (lastIsUnsafe [loadU, retI] = true →
          secondToLastIsEnd (markerPlantBlock [loadU, retI]) = true)) :=
  ⟨by decide, claim_C3_amended [loadU, retI] (by decide) (by decide)⟩

/-- **C3 counterexample.** In the block `[storeU, retU]`, whose last
`unsafe_inst` instruction is the block terminator, MarkerPlanter produces
`[begin, storeU, end, retU]`: no end sentinel stands after the last
`unsafe_inst` instruction, refuting the claim's "the end after the last such
instruction" as stated. -/
theorem claim_C3_cex :
    markerPlantBlock bC3 = [mkMarkerBegin, storeU, mkMarkerEnd, retU]
    ∧ endAfterLastUnsafe (markerPlantBlock bC3) = false
    ∧ (bC3.any fun i => i.hasUnsafeInstMD) = true
    ∧ markerFree bC3 = true := by decide

/-- **C4 (confirmed).** For every basic block with exactly one terminator, at
its end, and at least one `unsafe_inst` instruction: when the last
`unsafe_inst` instruction is the block terminator, MarkerPlanter inserts the
end sentinel immediately before the terminator and the block still ends with
exactly one terminator; when it is not the terminator, the end sentinel is
inserted immediately after it. -/
theorem claim_C4 (b : List Inst)
    (hu : (b.any fun i => i.hasUnsafeInstMD) = true)
    (hterm : endsWithTerm b = true) (hone : termCount b = 1) :
    (lastIsUnsafe b = true →
      secondToLastIsEnd (markerPlantBlock b) = true
      ∧ endsWithTerm (markerPlantBlock b) = true
      ∧ termCount (markerPlantBlock b) = 1)
    ∧ (lastIsUnsafe b = false → endAfterLastUnsafe (markerPlantBlock b) = true) := by
  have hu' : (b.map captureInst).any (fun i => i.hasUnsafeInstMD) = true := by
    rw [cap_any_unsafeMD]; exact hu
  constructor
  · intro h
    have h' : lastIsUnsafe (b.map captureInst) = true := by
      rw [cap_lastIsUnsafe]; exact h
    obtain ⟨h1, h2⟩ := markBlock_term_case _ hu' h'
    refine ⟨h1, ?_, ?_⟩
    · unfold markerPlantBlock
      unfold endsWithTerm
      rw [h2]
      have := cap_endsWithTerm b
      unfold endsWithTerm at this
      rw [this]
      exact hterm
    · unfold markerPlantBlock
      rw [markBlock_termCount _ hu', cap_termCount, hone]
  · intro h
    exact markBlock_endAfter _ hu' (by rw [cap_lastIsUnsafe]; exact h)

/-- Witness for C4 at the concrete block `[storeU, retU]` (the last unsafe
instruction is the terminator). -/
theorem claim_C4_witness :
    ((([storeU, retU] : List Inst).any fun i => i.hasUnsafeInstMD) = true
      ∧ endsWithTerm [storeU, retU] = true ∧ termCount [storeU, retU] = 1)
    ∧ ((lastIsUnsafe [storeU, retU] = true →
        secondToLastIsEnd (markerPlantBlock [storeU, retU]) = true
        ∧ endsWithTerm (markerPlantBlock [storeU, retU]) = true
        ∧ termCount (markerPlantBlock [storeU, retU]) = 1)
      ∧ (lastIsUnsafe [storeU, retU] = false →
          endAfterLastUnsafe (markerPlantBlock [storeU, retU]) = true)) :=
  ⟨by decide, claim_C4 [storeU, retU] (by decide) (by decide) (by decide)⟩

/-! ### CycleCounter lemmas -/

theorem marker_not_both (i : Inst) (h : isMarkerBegin i = true) :
    isMarkerEnd i = false := by
  unfold isMarkerBegin at h
  unfold isMarkerEnd
  rcases hk : i.kind with _ | s | _ | _ <;> rw [hk] at h <;> try cases h
  have hs : s = UNSAFE_MARKER_BEGIN := by simpa using h
  subst hs
  decide

theorem splitAtEndMarker_some (l : List Inst) :
    ∀ mid after, splitAtEndMarker l = some (mid, after) →
      ∃ e, l = mid ++ e :: after ∧ isMarkerEnd e = true ∧
        ∀ x ∈ mid, isMarkerEnd x = false := by
  induction l with
  | nil => intro mid after h; cases h
  | cons i rest ih =>
    intro mid after h
    unfold splitAtEndMarker at h
    by_cases he : isMarkerEnd i = true
    · rw [he] at h
      simp at h
      obtain ⟨h1, h2⟩ := h
      subst h1
      subst h2
      exact ⟨i, rfl, he, fun x hx => absurd hx (List.not_mem_nil x)⟩
    · rw [eq_false_of_ne_true he] at h
      simp only [Bool.false_eq_true, if_false] at h
      rcases hsp : splitAtEndMarker rest with _ | ⟨mid', after'⟩ <;> rw [hsp] at h
      · cases h
      · simp at h
        obtain ⟨e, hre, hee, hmid⟩ := ih mid' after' hsp
        obtain ⟨h1, h2⟩ := h
        subst h1
        subst h2
        refine ⟨e, ?_, hee, ?_⟩
        · rw [hre]; rfl
        · intro x hx
          rcases List.mem_cons.mp hx with rfl | hx'
          · exact eq_false_of_ne_true he
          · exact hmid x hx'

theorem splitAtEndMarker_mk (mid : List Inst) (e : Inst) (q : List Inst)
    (hmid : ∀ x ∈ mid, isMarkerEnd x = false) (he : isMarkerEnd e = true) :
    splitAtEndMarker (mid ++ e :: q) = some (mid, q) := by
  induction mid with
  | nil =>
    rw [List.nil_append]
    simp only [splitAtEndMarker]
    rw [he]
    simp
  | cons a t ih =>
    have ha := hmid a (List.mem_cons_self a t)
    rw [List.cons_append]
    simp only [splitAtEndMarker]
    rw [ha]
    simp only [Bool.false_eq_true, if_false]
    rw [ih fun x hx => hmid x (List.mem_cons_of_mem a hx)]

theorem altFrom_true_split (l : List Inst)
    (h : altFrom true (markerTags l) = true) :
    ∃ mid after, splitAtEndMarker l = some (mid, after)
      ∧ (∀ x ∈ mid, isMarkerInst x = false)
      ∧ altFrom false (markerTags after) = true := by
  induction l with
  | nil => cases h
  | cons j r ih =>
    by_cases hb : isMarkerBegin j = true
    · rw [markerTags_cons, hb] at h
      simp only [if_pos trivial] at h
      cases h
    · by_cases he : isMarkerEnd j = true
      · refine ⟨[], r, ?_, ?_, ?_⟩
        · simp only [splitAtEndMarker]
          rw [he]
          simp
        · intro x hx; cases hx
        · rw [markerTags_cons, eq_false_of_ne_true hb, he] at h
          simpa using h
      · rw [markerTags_cons, eq_false_of_ne_true hb, eq_false_of_ne_true he] at h
        simp only [Bool.false_eq_true, if_false] at h
        obtain ⟨mid, after, hsp, hmid, hbal⟩ := ih h
        refine ⟨j :: mid, after, ?_, ?_, hbal⟩
        · simp only [splitAtEndMarker]
          rw [eq_false_of_ne_true he]
          simp only [Bool.false_eq_true, if_false]
          rw [hsp]
        · intro x hx
          rcases List.mem_cons.mp hx with rfl | hx'
          · unfold isMarkerInst
            rw [eq_false_of_ne_true hb, eq_false_of_ne_true he]
            rfl
          · exact hmid x hx'

theorem cycleGo_fuel (f1 : Nat) :
    ∀ (f2 k : Nat) (l : List Inst), l.length ≤ f1 → l.length ≤ f2 →
      cycleGo f1 k l = cycleGo f2 k l := by
  induction f1 with
  | zero =>
    intro f2 k l h1 _
    have : l = [] := List.eq_nil_of_length_eq_zero (Nat.le_zero.mp h1)
    subst this
    cases f2 <;> rfl
  | succ f ih =>
    intro f2 k l h1 h2
    cases l with
    | nil => cases f2 <;> rfl
    | cons i rest =>
      cases f2 with
      | zero => simp at h2
      | succ g =>
        simp only [cycleGo]
        by_cases hb : isMarkerBegin i = true
        · rw [hb]
          simp only [if_pos trivial]
          rcases hsp : splitAtEndMarker rest with _ | ⟨mid, after⟩
          · simp only []
            rw [ih g k rest (by simpa using h1) (by simpa using h2)]
          · obtain ⟨e, hre, _, _⟩ := splitAtEndMarker_some rest mid after hsp
            have hlen : after.length < rest.length := by
              rw [hre]; simp; omega
            simp only []
            rw [ih g (k + 1) after (by simp at h1; omega) (by simp at h2; omega)]
        · rw [eq_false_of_ne_true hb]
          simp only [Bool.false_eq_true, if_false]
          rw [ih g k rest (by simpa using h1) (by simpa using h2)]

@[simp] theorem isMarkerInst_fence : isMarkerInst fenceInst = false := rfl

@[simp] theorem isMarkerInst_startMeasure (k : Nat) :
    isMarkerInst (startMeasureCall k) = false := rfl

@[simp] theorem isMarkerInst_endMeasure (k : Nat) :
    isMarkerInst (endMeasureCall k) = false := rfl

theorem markerFree_cons (i : Inst) (l : List Inst) :
    markerFree (i :: l) = (!isMarkerInst i && markerFree l) := by
  unfold markerFree
  rfl

theorem markerFree_append (l1 l2 : List Inst) :
    markerFree (l1 ++ l2) = (markerFree l1 && markerFree l2) := by
  unfold markerFree
  exact List.all_append

theorem cycleGo_markerFree (fuel : Nat) :
    ∀ (k : Nat) (l : List Inst), l.length ≤ fuel → balancedBlock l = true →
      markerFree (cycleGo fuel k l).1 = true := by
  induction fuel with
  | zero =>
    intro k l h1 _
    have : l = [] := List.eq_nil_of_length_eq_zero (Nat.le_zero.mp h1)
    subst this
    rfl
  | succ f ih =>
    intro k l h1 hbal
    cases l with
    | nil => rfl
    | cons i rest =>
      simp only [cycleGo]
      by_cases hb : isMarkerBegin i = true
      · rw [hb]
        simp only [if_pos trivial]
        unfold balancedBlock at hbal
        rw [markerTags_cons, hb] at hbal
        simp only [if_pos trivial] at hbal
        have halt : altFrom true (markerTags rest) = true := by
          unfold altFrom at hbal
          simpa using hbal
        obtain ⟨mid, after, hsp, hmid, hbal'⟩ := altFrom_true_split rest halt
        rw [hsp]
        simp only []
        obtain ⟨e, hre, _, _⟩ := splitAtEndMarker_some rest mid after hsp
        have hlen : after.length ≤ f := by
          rw [hre] at h1
          simp at h1
          omega
        have hrec := ih (k + 1) after hlen hbal'
        rw [markerFree_cons, markerFree_cons, markerFree_append, markerFree_cons,
          markerFree_cons]
        rw [hrec, (markerFree_iff mid).mpr hmid]
        simp
      · rw [eq_false_of_ne_true hb]
        simp only [Bool.false_eq_true, if_false]
        by_cases he : isMarkerEnd i = true
        · unfold balancedBlock at hbal
          rw [markerTags_cons, eq_false_of_ne_true hb, he] at hbal
          simp only [if_pos trivial] at hbal
          unfold altFrom at hbal
          simp at hbal
        · have hbal' : balancedBlock rest = true := by
            unfold balancedBlock at hbal ⊢
            rw [markerTags_cons, eq_false_of_ne_true hb, eq_false_of_ne_true he] at hbal
            simpa using hbal
          rw [markerFree_cons, ih k rest (by simpa using h1) hbal']
          have : isMarkerInst i = false := by
            unfold isMarkerInst
            rw [eq_false_of_ne_true hb, eq_false_of_ne_true he]
            rfl
          rw [this]
          rfl

theorem cycleGo_pair_shape (p : List Inst) :
    ∀ (fuel k : Nat) (mid q : List Inst) (bi ei : Inst),
      markerFree p = true → markerFree mid = true →
      isMarkerBegin bi = true → isMarkerEnd ei = true →
      (p ++ bi :: (mid ++ ei :: q)).length ≤ fuel →
      (cycleGo fuel k (p ++ bi :: (mid ++ ei :: q))).1
        = p ++ fenceInst :: startMeasureCall k ::
            (mid ++ fenceInst :: endMeasureCall k :: (cycleGo q.length (k + 1) q).1) := by
  induction p with
  | nil =>
    intro fuel k mid q bi ei _ hmid hbi hei hlen
    rw [List.nil_append] at hlen ⊢
    cases fuel with
    | zero => simp at hlen
    | succ f =>
      simp only [cycleGo]
      rw [hbi]
      simp only [if_pos trivial]
      have hmid' : ∀ x ∈ mid, isMarkerEnd x = false := by
        intro x hx
        have := (markerFree_iff mid).mp hmid x hx
        unfold isMarkerInst at this
        exact (Bool.or_eq_false_iff.mp this).2
      rw [splitAtEndMarker_mk mid ei q hmid' hei]
      simp only []
      rw [cycleGo_fuel f q.length (k + 1) q (by simp at hlen; omega) (Nat.le_refl _)]
      rfl
  | cons a t ih =>
    intro fuel k mid q bi ei hp hmid hbi hei hlen
    rw [markerFree_cons] at hp
    simp only [Bool.and_eq_true, Bool.not_eq_true'] at hp
    have hpa : isMarkerInst a = false := hp.1
    have hpt : markerFree t = true := hp.2
    cases fuel with
    | zero => simp at hlen
    | succ f =>
      rw [List.cons_append]
      simp only [cycleGo]
      have hba : isMarkerBegin a = false := by
        unfold isMarkerInst at hpa
        exact (Bool.or_eq_false_iff.mp hpa).1
      rw [hba]
      simp only [Bool.false_eq_true, if_false]
      rw [List.cons_append] at hlen
      rw [ih f k mid q bi ei hpt hmid hbi hei (by simpa using hlen)]
      rfl

theorem cycleRwBlock_pair_shape (k : Nat) (p mid q : List Inst) (bi ei : Inst)
    (hp : markerFree p = true) (hmid : markerFree mid = true)
    (hbi : isMarkerBegin bi = true) (hei : isMarkerEnd ei = true) :
    (cycleRwBlock k (p ++ bi :: (mid ++ ei :: q))).1
      = p ++ fenceInst :: startMeasureCall k ::
          (mid ++ fenceInst :: endMeasureCall k :: (cycleRwBlock (k + 1) q).1) := by
  unfold cycleRwBlock
  exact cycleGo_pair_shape p _ k mid q bi ei hp hmid hbi hei (Nat.le_refl _)

theorem balanced_noPair_markerFree (b : List Inst)
    (hbal : balancedBlock b = true) (hnp : blockHasPair b = false) :
    markerFree b = true := by
  induction b with
  | nil => rfl
  | cons i r ih =>
    by_cases hb : isMarkerBegin i = true
    · exfalso
      unfold balancedBlock at hbal
      rw [markerTags_cons, hb] at hbal
      simp only [if_pos trivial] at hbal
      have halt : altFrom true (markerTags r) = true := by
        unfold altFrom at hbal
        simpa using hbal
      obtain ⟨mid, after, hsp, _, _⟩ := altFrom_true_split r halt
      obtain ⟨e, hre, hee, _⟩ := splitAtEndMarker_some r mid after hsp
      unfold blockHasPair at hnp
      rw [List.dropWhile_cons] at hnp
      rw [hb] at hnp
      simp only [Bool.not_true, Bool.false_eq_true, if_false, List.tail_cons] at hnp
      have : r.any isMarkerEnd = true :=
        List.any_eq_true.mpr ⟨e, by rw [hre]; simp, hee⟩
      rw [this] at hnp
      cases hnp
    · by_cases he : isMarkerEnd i = true
      · exfalso
        unfold balancedBlock at hbal
        rw [markerTags_cons, eq_false_of_ne_true hb, he] at hbal
        simp only [if_pos trivial] at hbal
        unfold altFrom at hbal
        simp at hbal
      · have hbal' : balancedBlock r = true := by
          unfold balancedBlock at hbal ⊢
          rw [markerTags_cons, eq_false_of_ne_true hb, eq_false_of_ne_true he] at hbal
          simpa using hbal
        have hnp' : blockHasPair r = false := by
          unfold blockHasPair at hnp ⊢
          rw [List.dropWhile_cons, eq_false_of_ne_true hb] at hnp
          simpa using hnp
        rw [markerFree_cons, ih hbal' hnp']
        have : isMarkerInst i = false := by
          unfold isMarkerInst
          rw [eq_false_of_ne_true hb, eq_false_of_ne_true he]
          rfl
        rw [this]
        rfl

theorem getOrInsert_mem (m : IRModule) (n : String) :
    ∀ f ∈ (m.getOrInsertFunction n).functions,
      f ∈ m.functions ∨ f = { name := n, isDeclaration := true } := by
  intro f hf
  unfold IRModule.getOrInsertFunction at hf
  split at hf
  · exact Or.inl hf
  · rcases List.mem_append.mp hf with h | h
    · exact Or.inl h
    · right; simpa using h

theorem getOrInsert_ctors (m : IRModule) (n : String) :
    (m.getOrInsertFunction n).ctors = m.ctors := by
  unfold IRModule.getOrInsertFunction
  split <;> rfl

theorem getOrInsert_dtors (m : IRModule) (n : String) :
    (m.getOrInsertFunction n).dtors = m.dtors := by
  unfold IRModule.getOrInsertFunction
  split <;> rfl

theorem getOrInsert_globals (m : IRModule) (n : String) :
    (m.getOrInsertFunction n).globals = m.globals := by
  unfold IRModule.getOrInsertFunction
  split <;> rfl

theorem getOrInsert_len (m : IRModule) (n : String) :
    m.functions.length ≤ (m.getOrInsertFunction n).functions.length := by
  unfold IRModule.getOrInsertFunction
  split <;> simp

theorem getOrInsert_any_self (m : IRModule) (n : String) :
    ((m.getOrInsertFunction n).functions.any fun f => f.name = n) = true := by
  unfold IRModule.getOrInsertFunction
  split
  case isTrue h => exact h
  case isFalse h => rw [List.any_append]; simp

theorem getOrInsert_any_mono (m : IRModule) (n : String) (P : Func → Bool)
    (h : m.functions.any P = true) :
    ((m.getOrInsertFunction n).functions.any P) = true := by
  unfold IRModule.getOrInsertFunction
  split
  · exact h
  · rw [List.any_append, h]; rfl

theorem instr_name (f : Func) : ((instrumentUnsafeBlocksF f).1).name = f.name := by
  unfold instrumentUnsafeBlocksF
  split <;> rfl

theorem instr_isDecl (f : Func) :
    ((instrumentUnsafeBlocksF f).1).isDeclaration = f.isDeclaration := by
  unfold instrumentUnsafeBlocksF
  split <;> rfl

theorem instr_snd (f : Func) :
    (instrumentUnsafeBlocksF f).2 = f.blocks.any blockHasPair := by
  unfold instrumentUnsafeBlocksF
  split
  case isTrue h => exact h.symm
  case isFalse h => exact (eq_false_of_ne_true h).symm

theorem cycleRwBlocks_markerFree (bs : List (List Inst)) :
    ∀ k, (∀ b ∈ bs, balancedBlock b = true) →
      ∀ b' ∈ cycleRwBlocks k bs, markerFree b' = true := by
  induction bs with
  | nil => intro k _ b' hb'; cases hb'
  | cons b rest ih =>
    intro k hbal b' hb'
    simp only [cycleRwBlocks] at hb'
    rcases List.mem_cons.mp hb' with rfl | h
    · exact cycleGo_markerFree b.length k b (Nat.le_refl _)
        (hbal b (List.mem_cons_self b rest))
    · exact ih _ (fun x hx => hbal x (List.mem_cons_of_mem b hx)) b' h

theorem instrumentUnsafeBlocksF_markerFree (f : Func)
    (hbal : ∀ b ∈ f.blocks, balancedBlock b = true) :
    ∀ b ∈ ((instrumentUnsafeBlocksF f).1).blocks, markerFree b = true := by
  unfold instrumentUnsafeBlocksF
  by_cases h : f.blocks.any blockHasPair = true
  · rw [if_pos h]
    intro b hb
    exact cycleRwBlocks_markerFree f.blocks 0 hbal b hb
  · rw [if_neg h]
    intro b hb
    have hnp : blockHasPair b = false := by
      have := List.any_eq_false.mp (eq_false_of_ne_true h)
      exact eq_false_of_ne_true (this b hb)
    exact balanced_noPair_markerFree b (hbal b hb) hnp

theorem cpuCycle_run_functions (m : IRModule) :
    (CpuCycleCountPass.run true m).1.functions
      = (setupModuleHooks ((((m.getOrInsertFunction PROGRAM_START_FN).getOrInsertFunction
          START_MEASUREMENT_FN).getOrInsertFunction
          END_MEASUREMENT_FN).getOrInsertFunction PRINT_STATS_FN)).functions.map
          (fun f => if f.isDeclaration then f else (instrumentUnsafeBlocksF f).1) := rfl

theorem cpuCycle_run_ctors (m : IRModule) :
    (CpuCycleCountPass.run true m).1.ctors
      = ((((m.getOrInsertFunction PROGRAM_START_FN).getOrInsertFunction
          START_MEASUREMENT_FN).getOrInsertFunction
          END_MEASUREMENT_FN).getOrInsertFunction PRINT_STATS_FN).ctors
        ++ [("cpu_cycle_ctor", 0)] := rfl

theorem cpuCycle_run_dtors (m : IRModule) :
    (CpuCycleCountPass.run true m).1.dtors
      = ((((m.getOrInsertFunction PROGRAM_START_FN).getOrInsertFunction
          START_MEASUREMENT_FN).getOrInsertFunction
          END_MEASUREMENT_FN).getOrInsertFunction PRINT_STATS_FN).dtors
        ++ [(PRINT_STATS_FN, 0)] := rfl

theorem cpuCycle_run_snd (m : IRModule) :
    (CpuCycleCountPass.run true m).2
      = (setupModuleHooks ((((m.getOrInsertFunction PROGRAM_START_FN).getOrInsertFunction
          START_MEASUREMENT_FN).getOrInsertFunction
          END_MEASUREMENT_FN).getOrInsertFunction PRINT_STATS_FN)).functions.any
          (fun f => !f.isDeclaration && (instrumentUnsafeBlocksF f).2) := rfl

theorem any_name_map_instr (fs : List Func) (n : String) :
    ((fs.map fun f => if f.isDeclaration then f else (instrumentUnsafeBlocksF f).1).any
      fun f => f.name = n) = (fs.any fun f => f.name = n) := by
  induction fs with
  | nil => rfl
  | cons a t ih =>
    simp only [List.map_cons, List.any_cons, ih]
    congr 1
    by_cases h : a.isDeclaration = true
    · rw [if_pos h]
    · rw [if_neg h, instr_name]

/-- **C5 (confirmed, under the spec's well-formedness assumptions).** For a
primary-build module whose blocks are marker-balanced and whose declarations
have no body: after CycleCounter runs, no marker sentinel remains anywhere in
the module; and at the former position of each matched begin/end pair stand a
fence plus `cpu_cycle_start_measurement` call and a fence plus
`cpu_cycle_end_measurement` call fed the start call's return value (the
shared SSA index `k`). -/
theorem claim_C5 (m : IRModule)
    (hbal : moduleBalanced m = true)
    (hdecl : ∀ f ∈ m.functions, f.isDeclaration = true → f.blocks = []) :
    moduleMarkerFree (CpuCycleCountPass.run true m).1 = true
    ∧ (∀ (k : Nat) (p mid q : List Inst) (bi ei : Inst),
        markerFree p = true → markerFree mid = true →
        isMarkerBegin bi = true → isMarkerEnd ei = true →
        (cycleRwBlock k (p ++ bi :: (mid ++ ei :: q))).1
          = p ++ fenceInst :: startMeasureCall k ::
              (mid ++ fenceInst :: endMeasureCall k :: (cycleRwBlock (k + 1) q).1)) := by
  refine ⟨?_, fun k p mid q bi ei hp hmid hbi hei =>
    cycleRwBlock_pair_shape k p mid q bi ei hp hmid hbi hei⟩
  have hmQ : ∀ f ∈ m.functions, ∀ b ∈ f.blocks, balancedBlock b = true := by
    intro f hf b hb
    unfold moduleBalanced at hbal
    have := List.all_eq_true.mp hbal f hf
    exact List.all_eq_true.mp this b hb
  unfold moduleMarkerFree
  rw [List.all_eq_true]
  intro f hf
  rw [cpuCycle_run_functions] at hf
  obtain ⟨g, hg, rfl⟩ := List.mem_map.mp hf
  have hg' : g ∈ ((((m.getOrInsertFunction PROGRAM_START_FN).getOrInsertFunction
      START_MEASUREMENT_FN).getOrInsertFunction
      END_MEASUREMENT_FN).getOrInsertFunction PRINT_STATS_FN).functions
      ∨ g = cpuCycleCtorFunc := by
    unfold setupModuleHooks at hg
    simp only [List.mem_append] at hg
    rcases hg with h | h
    · exact Or.inl h
    · right; simpa using h
  have hgcases : (g ∈ m.functions) ∨ (g.isDeclaration = true ∧ g.blocks = [])
      ∨ g = cpuCycleCtorFunc := by
    rcases hg' with h4 | hc
    · rcases getOrInsert_mem _ _ g h4 with h3 | rfl
      · rcases getOrInsert_mem _ _ g h3 with h2 | rfl
        · rcases getOrInsert_mem _ _ g h2 with h1 | rfl
          · rcases getOrInsert_mem _ _ g h1 with h0 | rfl
            · exact Or.inl h0
            · exact Or.inr (Or.inl ⟨rfl, rfl⟩)
          · exact Or.inr (Or.inl ⟨rfl, rfl⟩)
        · exact Or.inr (Or.inl ⟨rfl, rfl⟩)
      · exact Or.inr (Or.inl ⟨rfl, rfl⟩)
    · exact Or.inr (Or.inr hc)
  by_cases hd : g.isDeclaration = true
  · rw [if_pos hd]
    rcases hgcases with hmem | ⟨_, hbl⟩ | rfl
    · rw [List.all_eq_true]
      intro b hb
      rw [hdecl g hmem hd] at hb
      cases hb
    · rw [List.all_eq_true]
      intro b hb
      rw [hbl] at hb
      cases hb
    · cases hd
  · rw [if_neg hd]
    rcases hgcases with hmem | ⟨hdecl', _⟩ | rfl
    · rw [List.all_eq_true]
      intro b hb
      exact instrumentUnsafeBlocksF_markerFree g (hmQ g hmem) b hb
    · exact absurd hdecl' hd
    · rw [List.all_eq_true]
      intro b hb
      refine instrumentUnsafeBlocksF_markerFree cpuCycleCtorFunc ?_ b hb
      intro b' hb'
      have : b' = [{ kind := .dirCall .call PROGRAM_START_FN [] },
          { kind := .plain .ret }] := by
        simpa [cpuCycleCtorFunc] using hb'
      rw [this]
      decide

/-- Witness for C5 at the concrete module `mMarked`. -/
theorem claim_C5_witness :
    (moduleBalanced mMarked = true
      ∧ (∀ f ∈ mMarked.functions, f.isDeclaration = true → f.blocks = []))
    ∧ (moduleMarkerFree (CpuCycleCountPass.run true mMarked).1 = true
      ∧ (∀ (k : Nat) (p mid q : List Inst) (bi ei : Inst),
          markerFree p = true → markerFree mid = true →
          isMarkerBegin bi = true → isMarkerEnd ei = true →
          (cycleRwBlock k (p ++ bi :: (mid ++ ei :: q))).1
            = p ++ fenceInst :: startMeasureCall k ::
                (mid ++ fenceInst :: endMeasureCall k :: (cycleRwBlock (k + 1) q).1))) :=
  ⟨⟨by decide, by decide⟩, claim_C5 mMarked (by decide) (by decide)⟩

/-- **C10 (confirmed).** On every primary-build module, CycleCounter declares
its four runtime helpers, registers `cpu_cycle_ctor` as a priority-0 module
constructor and `print_cpu_cycle_stats` as a priority-0 module destructor;
and when the module contains no matched marker pair it still reports "all
analyses preserved" even though the module it returns differs from its
input. -/
theorem claim_C10 (m : IRModule)
    (hnp : (m.functions.all fun f =>
      f.isDeclaration || f.blocks.all fun b => !blockHasPair b) = true) :
    ((CpuCycleCountPass.run true m).1.functions.any
        fun f => f.name = PROGRAM_START_FN) = true
    ∧ ((CpuCycleCountPass.run true m).1.functions.any
        fun f => f.name = START_MEASUREMENT_FN) = true
    ∧ ((CpuCycleCountPass.run true m).1.functions.any
        fun f => f.name = END_MEASUREMENT_FN) = true
    ∧ ((CpuCycleCountPass.run true m).1.functions.any
        fun f => f.name = PRINT_STATS_FN) = true
    ∧ ("cpu_cycle_ctor", 0) ∈ (CpuCycleCountPass.run true m).1.ctors
    ∧ (PRINT_STATS_FN, 0) ∈ (CpuCycleCountPass.run true m).1.dtors
    ∧ (CpuCycleCountPass.run true m).2 = false
    ∧ (CpuCycleCountPass.run true m).1 ≠ m := by
  have hany : ∀ n : String,
      (((((m.getOrInsertFunction PROGRAM_START_FN).getOrInsertFunction
          START_MEASUREMENT_FN).getOrInsertFunction
          END_MEASUREMENT_FN).getOrInsertFunction PRINT_STATS_FN).functions.any
        fun f => f.name = n) = true →
      ((CpuCycleCountPass.run true m).1.functions.any fun f => f.name = n) = true := by
    intro n h
    rw [cpuCycle_run_functions, any_name_map_instr]
    unfold setupModuleHooks
    simp only [List.any_append, h]
    rfl
  refine ⟨?_, ?_, ?_, ?_, ?_, ?_, ?_, ?_⟩
  · exact hany _ (getOrInsert_any_mono _ _ _ (getOrInsert_any_mono _ _ _
      (getOrInsert_any_mono _ _ _ (getOrInsert_any_self _ _))))
  · exact hany _ (getOrInsert_any_mono _ _ _ (getOrInsert_any_mono _ _ _
      (getOrInsert_any_self _ _)))
  · exact hany _ (getOrInsert_any_mono _ _ _ (getOrInsert_any_self _ _))
  · exact hany _ (getOrInsert_any_self _ _)
  · rw [cpuCycle_run_ctors]
    exact List.mem_append.mpr (Or.inr (by simp))
  · rw [cpuCycle_run_dtors]
    exact List.mem_append.mpr (Or.inr (by simp))
  · rw [cpuCycle_run_snd]
    unfold setupModuleHooks
    rw [List.any_append]
    have h1 : (((((m.getOrInsertFunction PROGRAM_START_FN).getOrInsertFunction
        START_MEASUREMENT_FN).getOrInsertFunction
        END_MEASUREMENT_FN).getOrInsertFunction PRINT_STATS_FN).functions.any
          fun f => !f.isDeclaration && (instrumentUnsafeBlocksF f).2) = false := by
      rw [List.any_eq_false]
      intro f hf
      have hcases : f ∈ m.functions ∨ f.isDeclaration = true := by
        rcases getOrInsert_mem _ _ f hf with h3 | rfl
        · rcases getOrInsert_mem _ _ f h3 with h2 | rfl
          · rcases getOrInsert_mem _ _ f h2 with h1 | rfl
            · rcases getOrInsert_mem _ _ f h1 with h0 | rfl
              · exact Or.inl h0
              · exact Or.inr rfl
            · exact Or.inr rfl
          · exact Or.inr rfl
        · exact Or.inr rfl
      intro hcontra
      simp only [Bool.and_eq_true, Bool.not_eq_true'] at hcontra
      obtain ⟨hnd, hpair⟩ := hcontra
      rcases hcases with hmem | hdecl
      · have := List.all_eq_true.mp hnp f hmem
        rcases Bool.or_eq_true_iff.mp this with hd | hall
        · rw [hd] at hnd; simp at hnd
        · rw [instr_snd] at hpair
          obtain ⟨b, hb, hbp⟩ := List.any_eq_true.mp hpair
          have := List.all_eq_true.mp hall b hb
          rw [hbp] at this
          simp at this
      · rw [hdecl] at hnd; simp at hnd
    rw [h1]
    have h2 : ([cpuCycleCtorFunc].any
        fun f => !f.isDeclaration && (instrumentUnsafeBlocksF f).2) = false := by
      decide
    rw [h2]
    rfl
  · have hlen : m.functions.length < (CpuCycleCountPass.run true m).1.functions.length := by
      rw [cpuCycle_run_functions, List.length_map]
      unfold setupModuleHooks
      rw [List.length_append]
      have g1 := getOrInsert_len m PROGRAM_START_FN
      have g2 := getOrInsert_len (m.getOrInsertFunction PROGRAM_START_FN)
        START_MEASUREMENT_FN
      have g3 := getOrInsert_len ((m.getOrInsertFunction PROGRAM_START_FN).getOrInsertFunction
        START_MEASUREMENT_FN) END_MEASUREMENT_FN
      have g4 := getOrInsert_len (((m.getOrInsertFunction PROGRAM_START_FN).getOrInsertFunction
        START_MEASUREMENT_FN).getOrInsertFunction END_MEASUREMENT_FN) PRINT_STATS_FN
      simp only [List.length_cons, List.length_nil]
      omega
    intro heq
    rw [heq] at hlen
    exact Nat.lt_irrefl _ hlen

/-- Witness for C10 at the empty module (no marker pairs at all). -/
theorem claim_C10_witness :
    ((emptyM.functions.all fun f =>
        f.isDeclaration || f.blocks.all fun b => !blockHasPair b) = true)
    ∧ (((CpuCycleCountPass.run true emptyM).1.functions.any
          fun f => f.name = PROGRAM_START_FN) = true
      ∧ ((CpuCycleCountPass.run true emptyM).1.functions.any
          fun f => f.name = START_MEASUREMENT_FN) = true
      ∧ ((CpuCycleCountPass.run true emptyM).1.functions.any
          fun f => f.name = END_MEASUREMENT_FN) = true
      ∧ ((CpuCycleCountPass.run true emptyM).1.functions.any
          fun f => f.name = PRINT_STATS_FN) = true
      ∧ ("cpu_cycle_ctor", 0) ∈ (CpuCycleCountPass.run true emptyM).1.ctors
      ∧ (PRINT_STATS_FN, 0) ∈ (CpuCycleCountPass.run true emptyM).1.dtors
      ∧ (CpuCycleCountPass.run true emptyM).2 = false
      ∧ (CpuCycleCountPass.run true emptyM).1 ≠ emptyM) :=
  ⟨by decide, claim_C10 emptyM (by decide)⟩

/-! ### FunctionTracker lemmas -/

theorem any_end_of_altFrom_true (r : List Inst)
    (h : altFrom true (markerTags r) = true) : r.any isMarkerEnd = true := by
  obtain ⟨mid, after, hsp, _, _⟩ := altFrom_true_split r h
  obtain ⟨e, hre, hee, _⟩ := splitAtEndMarker_some r mid after hsp
  exact List.any_eq_true.mpr ⟨e, by rw [hre]; simp, hee⟩

theorem analyzeGo_append (r : List Inst) (b : List Inst) :
    (altFrom false (markerTags b) = true →
      analyzeGo false (b ++ r) = (analyzeGo false b || analyzeGo false r))
    ∧ (altFrom true (markerTags b) = true →
      analyzeGo true (b ++ r) = (analyzeGo true b || analyzeGo false r)) := by
  induction b with
  | nil =>
    constructor
    · intro _; simp [analyzeGo]
    · intro h; cases h
  | cons i t ih =>
    constructor
    · intro h
      rw [markerTags_cons] at h
      by_cases hb : isMarkerBegin i = true
      · rw [hb] at h
        simp only [if_pos trivial] at h
        have halt : altFrom true (markerTags t) = true := by
          unfold altFrom at h
          simpa using h
        rw [List.cons_append]
        simp only [analyzeGo, hb, if_pos trivial]
        exact ih.2 halt
      · by_cases he : isMarkerEnd i = true
        · rw [eq_false_of_ne_true hb, he] at h
          simp only [if_pos trivial] at h
          unfold altFrom at h
          simp at h
        · rw [eq_false_of_ne_true hb, eq_false_of_ne_true he] at h
          simp only [Bool.false_eq_true, if_false] at h
          rw [List.cons_append]
          simp only [analyzeGo, hb, he, Bool.false_eq_true, if_false,
            eq_false_of_ne_true hb, eq_false_of_ne_true he, Bool.false_and]
          exact ih.1 h
    · intro h
      rw [markerTags_cons] at h
      by_cases hb : isMarkerBegin i = true
      · rw [hb] at h
        simp only [if_pos trivial] at h
        unfold altFrom at h
        simp at h
      · by_cases he : isMarkerEnd i = true
        · rw [eq_false_of_ne_true hb, he] at h
          simp only [if_pos trivial] at h
          have halt : altFrom false (markerTags t) = true := by
            unfold altFrom at h
            simpa using h
          rw [List.cons_append]
          simp only [analyzeGo, eq_false_of_ne_true hb, he, Bool.false_eq_true,
            if_false, if_pos trivial]
          exact ih.1 halt
        · rw [eq_false_of_ne_true hb, eq_false_of_ne_true he] at h
          simp only [Bool.false_eq_true, if_false] at h
          rw [List.cons_append]
          simp only [analyzeGo, eq_false_of_ne_true hb, eq_false_of_ne_true he,
            Bool.false_eq_true, if_false, Bool.true_and]
          by_cases hU : i.hasUnsafeInstMD = true
          · rw [hU]
            simp
          · rw [eq_false_of_ne_true hU]
            simp only [Bool.false_eq_true, if_false]
            exact ih.2 h

theorem analyzeGo_flatten (bs : List (List Inst))
    (hbal : ∀ b ∈ bs, balancedBlock b = true) :
    analyzeGo false bs.flatten = bs.any (fun b => analyzeGo false b) := by
  induction bs with
  | nil => rfl
  | cons b rest ih =>
    rw [List.flatten_cons, List.any_cons]
    rw [(analyzeGo_append rest.flatten b).1 (hbal b (List.mem_cons_self b rest))]
    rw [ih fun x hx => hbal x (List.mem_cons_of_mem b hx)]

theorem analyzeGo_spec (b : List Inst) :
    (altFrom false (markerTags b) = true → analyzeGo false b = specQualOut b)
    ∧ (altFrom true (markerTags b) = true → analyzeGo true b = specQualIn b) := by
  induction b with
  | nil =>
    constructor
    · intro _; rfl
    · intro h; cases h
  | cons i t ih =>
    constructor
    · intro h
      rw [markerTags_cons] at h
      by_cases hb : isMarkerBegin i = true
      · rw [hb] at h
        simp only [if_pos trivial] at h
        have halt : altFrom true (markerTags t) = true := by
          unfold altFrom at h
          simpa using h
        simp only [analyzeGo, specQualOut, hb, if_pos trivial]
        exact ih.2 halt
      · by_cases he : isMarkerEnd i = true
        · rw [eq_false_of_ne_true hb, he] at h
          simp only [if_pos trivial] at h
          unfold altFrom at h
          simp at h
        · rw [eq_false_of_ne_true hb, eq_false_of_ne_true he] at h
          simp only [Bool.false_eq_true, if_false] at h
          simp only [analyzeGo, specQualOut, hb, he, eq_false_of_ne_true hb,
            eq_false_of_ne_true he, Bool.false_eq_true, if_false, Bool.false_and]
          exact ih.1 h
    · intro h
      rw [markerTags_cons] at h
      by_cases hb : isMarkerBegin i = true
      · rw [hb] at h
        simp only [if_pos trivial] at h
        unfold altFrom at h
        simp at h
      · by_cases he : isMarkerEnd i = true
        · rw [eq_false_of_ne_true hb, he] at h
          simp only [if_pos trivial] at h
          have halt : altFrom false (markerTags t) = true := by
            unfold altFrom at h
            simpa using h
          simp only [analyzeGo, specQualIn, eq_false_of_ne_true hb, he,
            Bool.false_eq_true, if_false, if_pos trivial]
          exact ih.1 halt
        · rw [eq_false_of_ne_true hb, eq_false_of_ne_true he] at h
          simp only [Bool.false_eq_true, if_false] at h
          simp only [analyzeGo, specQualIn, eq_false_of_ne_true hb,
            eq_false_of_ne_true he, Bool.false_eq_true, if_false, Bool.true_and]
          by_cases hU : i.hasUnsafeInstMD = true
          · rw [hU]
            rw [any_end_of_altFrom_true t h]
            simp
          · rw [eq_false_of_ne_true hU]
            simp only [Bool.false_eq_true, if_false, Bool.false_and]
            exact ih.2 h

theorem analyzeFunction_spec (f : Func)
    (hbal : ∀ b ∈ f.blocks, balancedBlock b = true) :
    analyzeFunction f = specHasUnsafeInRegion f := by
  unfold analyzeFunction specHasUnsafeInRegion
  rw [analyzeGo_flatten f.blocks hbal]
  have key : ∀ (bs : List (List Inst)), (∀ b ∈ bs, analyzeGo false b = specQualOut b) →
      bs.any (fun b => analyzeGo false b) = bs.any specQualOut := by
    intro bs
    induction bs with
    | nil => intro _; rfl
    | cons x xs ih =>
      intro h
      rw [List.any_cons, List.any_cons, h x (List.mem_cons_self x xs),
        ih fun b hb => h b (List.mem_cons_of_mem x hb)]
  exact key f.blocks fun b hb => (analyzeGo_spec b).1 (hbal b hb)

theorem trackerPhase1_eq (f : Func) (fs : List Func) (n : Nat) :
    trackerPhase1 (f :: fs) n =
      if shouldInstrumentFunction f then
        ({ f with funcIdMD := some (n % 2 ^ 32) } :: (trackerPhase1 fs (n + 1)).1,
         (n % 2 ^ 32,
          if analyzeFunction { f with funcIdMD := some (n % 2 ^ 32) } then 1 else 0,
          0, 0) :: (trackerPhase1 fs (n + 1)).2)
      else (f :: (trackerPhase1 fs n).1, (trackerPhase1 fs n).2) := by
  by_cases h : shouldInstrumentFunction f = true
  · rw [if_pos h]
    conv_lhs => rw [trackerPhase1]
    rw [h]
    simp only [if_pos trivial]
  · rw [if_neg h]
    conv_lhs => rw [trackerPhase1]
    rw [eq_false_of_ne_true h]
    simp only [Bool.false_eq_true, if_false]

theorem elig_set_md (f : Func) (x : Option Nat) :
    shouldInstrumentFunction { f with funcIdMD := x } = shouldInstrumentFunction f := rfl

theorem trackerPhase1_ids (fs : List Func) :
    ∀ n, (((trackerPhase1 fs n).1.filter shouldInstrumentFunction).map
        fun f => f.funcIdMD)
      = (List.range (fs.filter shouldInstrumentFunction).length).map
          fun i => some ((n + i) % 2 ^ 32) := by
  induction fs with
  | nil => intro n; rfl
  | cons f fs ih =>
    intro n
    rw [trackerPhase1_eq]
    by_cases h : shouldInstrumentFunction f = true
    · rw [if_pos h]
      simp only []
      rw [List.filter_cons]
      rw [show shouldInstrumentFunction { f with funcIdMD := some (n % 2 ^ 32) }
        = true from (elig_set_md f _).trans h]
      simp only [if_pos trivial, List.map_cons]
      rw [List.filter_cons, h]
      simp only [if_pos trivial, List.length_cons]
      rw [List.range_succ_eq_map, List.map_cons, List.map_map]
      congr 1
      all_goals first
      | (rw [ih (n + 1)]
         apply List.map_congr_left
         intro i _
         simp only [Function.comp_apply]
         congr 1
         omega)
      | simp
    · rw [if_neg h]
      simp only []
      rw [List.filter_cons, eq_false_of_ne_true h]
      simp only [Bool.false_eq_true, if_false]
      rw [List.filter_cons, eq_false_of_ne_true h]
      simp only [Bool.false_eq_true, if_false]
      exact ih n

theorem trackerPhase1_inelig (fs : List Func) :
    ∀ n f', f' ∈ (trackerPhase1 fs n).1 → shouldInstrumentFunction f' = false →
      f' ∈ fs := by
  induction fs with
  | nil => intro n f' h _; cases h
  | cons f fs ih =>
    intro n f' h hin
    rw [trackerPhase1_eq] at h
    by_cases hf : shouldInstrumentFunction f = true
    · rw [if_pos hf] at h
      simp only [List.mem_cons] at h
      rcases h with rfl | h
      · rw [elig_set_md] at hin
        rw [hf] at hin
        cases hin
      · exact List.mem_cons_of_mem f (ih (n + 1) f' h hin)
    · rw [if_neg hf] at h
      simp only [List.mem_cons] at h
      rcases h with rfl | h
      · exact List.mem_cons_self f' fs
      · exact List.mem_cons_of_mem f (ih n f' h hin)

theorem trackerPhase1_recs_len (fs : List Func) :
    ∀ n, (trackerPhase1 fs n).2.length
      = (fs.filter shouldInstrumentFunction).length := by
  induction fs with
  | nil => intro n; rfl
  | cons f fs ih =>
    intro n
    rw [trackerPhase1_eq]
    by_cases h : shouldInstrumentFunction f = true
    · rw [if_pos h]
      simp only [List.length_cons]
      rw [List.filter_cons, h]
      simp only [if_pos trivial, List.length_cons]
      rw [ih (n + 1)]
    · rw [if_neg h]
      simp only []
      rw [List.filter_cons, eq_false_of_ne_true h]
      simp only [Bool.false_eq_true, if_false]
      exact ih n

theorem analyzeFunction_set_md (f : Func) (x : Option Nat) :
    analyzeFunction { f with funcIdMD := x } = analyzeFunction f := rfl

theorem trackerPhase1_recs_spec (fs : List Func)
    (hbal : ∀ f ∈ fs, ∀ b ∈ f.blocks, balancedBlock b = true) :
    ∀ n, List.Forall₂ (fun (r : Nat × Nat × Nat × Nat) (f : Func) =>
        r.2.1 = 1 ↔ specHasUnsafeInRegion f = true)
      (trackerPhase1 fs n).2 (fs.filter shouldInstrumentFunction) := by
  induction fs with
  | nil => intro n; exact List.Forall₂.nil
  | cons f fs ih =>
    intro n
    have hbf : ∀ b ∈ f.blocks, balancedBlock b = true :=
      hbal f (List.mem_cons_self f fs)
    have hbal' : ∀ g ∈ fs, ∀ b ∈ g.blocks, balancedBlock b = true :=
      fun g hg => hbal g (List.mem_cons_of_mem f hg)
    rw [trackerPhase1_eq]
    by_cases h : shouldInstrumentFunction f = true
    · rw [if_pos h]
      simp only []
      rw [List.filter_cons, h]
      simp only [if_pos trivial]
      refine List.Forall₂.cons ?_ (ih hbal' (n + 1))
      rw [analyzeFunction_set_md, analyzeFunction_spec f hbf]
      by_cases hsp : specHasUnsafeInRegion f = true
      · rw [hsp]
        simp
      · rw [eq_false_of_ne_true hsp]
        simp
    · rw [if_neg h]
      simp only []
      rw [List.filter_cons, eq_false_of_ne_true h]
      simp only [Bool.false_eq_true, if_false]
      exact ih hbal' n

theorem getOrInsert_filter_elig (m : IRModule) (n : String) :
    (m.getOrInsertFunction n).functions.filter shouldInstrumentFunction
      = m.functions.filter shouldInstrumentFunction := by
  unfold IRModule.getOrInsertFunction
  split
  · rfl
  · rw [List.filter_append]
    have : List.filter shouldInstrumentFunction
        [({ name := n, isDeclaration := true } : Func)] = [] := rfl
    rw [this, List.append_nil]

theorem elig_trackerInitFunc (c : Nat) :
    shouldInstrumentFunction (trackerInitFunc c) = false := rfl

theorem setTrackerAttrs_elig (f : Func) :
    shouldInstrumentFunction
      (if f.name = INIT_METADATA_FN ∨ f.name = RECORD_FUNCTION_FN
          ∨ f.name = DUMP_STATS_FN then
        { f with noinline := true, internalLinkage := false }
      else f) = shouldInstrumentFunction f := by
  split <;> rfl

theorem setTrackerAttrs_md (f : Func) :
    (if f.name = INIT_METADATA_FN ∨ f.name = RECORD_FUNCTION_FN
        ∨ f.name = DUMP_STATS_FN then
      { f with noinline := true, internalLinkage := false }
    else f).funcIdMD = f.funcIdMD := by
  split <;> rfl

theorem phase5_elig (f : Func) :
    shouldInstrumentFunction
      (if shouldInstrumentFunction f then
        match f.funcIdMD, f.blocks with
        | some fid, b :: bs => { f with blocks := (recordFunctionCall fid :: b) :: bs }
        | _, _ => f
      else f) = shouldInstrumentFunction f := by
  split
  · rcases f.funcIdMD with _ | v <;> rcases f.blocks with _ | ⟨b, bs⟩ <;> rfl
  · rfl

theorem phase5_md (f : Func) :
    (if shouldInstrumentFunction f then
      match f.funcIdMD, f.blocks with
      | some fid, b :: bs => { f with blocks := (recordFunctionCall fid :: b) :: bs }
      | _, _ => f
    else f).funcIdMD = f.funcIdMD := by
  split
  · rcases hmd : f.funcIdMD with _ | v <;> rcases hb : f.blocks with _ | ⟨b, bs⟩ <;>
      simp [hmd]
  · rfl

theorem filter_elig_map (g : Func → Func)
    (hg : ∀ f, shouldInstrumentFunction (g f) = shouldInstrumentFunction f)
    (fs : List Func) :
    (fs.map g).filter shouldInstrumentFunction
      = (fs.filter shouldInstrumentFunction).map g := by
  induction fs with
  | nil => rfl
  | cons a t ih =>
    rw [List.map_cons, List.filter_cons, List.filter_cons, hg a]
    by_cases h : shouldInstrumentFunction a = true
    · rw [h]
      simp only [if_pos trivial, List.map_cons]
      rw [ih]
    · rw [eq_false_of_ne_true h]
      simp only [Bool.false_eq_true, if_false]
      exact ih

theorem map_md_map (g : Func → Func)
    (hmd : ∀ f, (g f).funcIdMD = f.funcIdMD) (fs : List Func) :
    ((fs.map g).map fun f => f.funcIdMD) = fs.map fun f => f.funcIdMD := by
  induction fs with
  | nil => rfl
  | cons a t ih =>
    rw [List.map_cons, List.map_cons, List.map_cons, hmd a, ih]

theorem tracker_run_functions (m : IRModule)
    (hne : (trackerPhase1 m.functions 0).2.isEmpty = false) :
    (UnsafeFunctionTrackerPass.run true m).1.functions
      = (setTrackerAttrs (((({ m with functions := (trackerPhase1 m.functions 0).1
            }).getOrInsertFunction INIT_METADATA_FN).getOrInsertFunction
            RECORD_FUNCTION_FN).getOrInsertFunction DUMP_STATS_FN).functions
          ++ [trackerInitFunc (trackerPhase1 m.functions 0).2.length]).map
          (fun f => if shouldInstrumentFunction f then
              match f.funcIdMD, f.blocks with
              | some fid, b :: bs =>
                { f with blocks := (recordFunctionCall fid :: b) :: bs }
              | _, _ => f
            else f) := by
  unfold UnsafeFunctionTrackerPass.run
  simp only [Bool.not_true, Bool.false_eq_true, if_false, hne]

theorem tracker_run_functions_empty (m : IRModule)
    (hne : (trackerPhase1 m.functions 0).2.isEmpty = true) :
    (UnsafeFunctionTrackerPass.run true m).1.functions
      = (trackerPhase1 m.functions 0).1 := by
  unfold UnsafeFunctionTrackerPass.run
  simp only [Bool.not_true, Bool.false_eq_true, if_false, hne, if_pos trivial]

/-- **C6 (confirmed).** On a primary-build module whose functions carry no
pre-existing `unsafe_count.func_id` attachment (FunctionTracker is the pass
that creates this key) and with fewer than `2 ^ 32` functions: after
FunctionTracker runs, the eligible functions carry, in module order, exactly
the ids `0, 1, …, n-1` where `n` is the number of eligible functions of the
input, and no ineligible function carries the attachment. -/
theorem claim_C6 (m : IRModule)
    (hclean : ∀ f ∈ m.functions, f.funcIdMD = none)
    (hsize : m.functions.length < 2 ^ 32) :
    (((UnsafeFunctionTrackerPass.run true m).1.functions.filter
        shouldInstrumentFunction).map fun f => f.funcIdMD)
      = (List.range (m.functions.filter shouldInstrumentFunction).length).map some
    ∧ (∀ f ∈ (UnsafeFunctionTrackerPass.run true m).1.functions,
        shouldInstrumentFunction f = false → f.funcIdMD = none) := by
  have hids := trackerPhase1_ids m.functions 0
  have hrange : ((List.range (m.functions.filter shouldInstrumentFunction).length).map
      fun i => some ((0 + i) % 2 ^ 32))
      = (List.range (m.functions.filter shouldInstrumentFunction).length).map some := by
    apply List.map_congr_left
    intro i hi
    have hlt : i < (m.functions.filter shouldInstrumentFunction).length :=
      List.mem_range.mp hi
    have hle := List.length_filter_le shouldInstrumentFunction m.functions
    congr 1
    rw [Nat.zero_add]
    exact Nat.mod_eq_of_lt (by omega)
  by_cases hne : (trackerPhase1 m.functions 0).2.isEmpty = true
  · have hlen0 : (m.functions.filter shouldInstrumentFunction).length = 0 := by
      rw [← trackerPhase1_recs_len m.functions 0]
      simpa [List.isEmpty_iff_length_eq_zero] using hne
    constructor
    · rw [tracker_run_functions_empty m hne, hids, hlen0]
      rfl
    · intro f hf hin
      rw [tracker_run_functions_empty m hne] at hf
      exact hclean f (trackerPhase1_inelig m.functions 0 f hf hin)
  · have hne' : (trackerPhase1 m.functions 0).2.isEmpty = false :=
      eq_false_of_ne_true hne
    constructor
    · rw [tracker_run_functions m hne']
      rw [filter_elig_map _ phase5_elig]
      rw [map_md_map _ phase5_md]
      rw [List.filter_append]
      have hinit : List.filter shouldInstrumentFunction
          [trackerInitFunc (trackerPhase1 m.functions 0).2.length] = [] := rfl
      rw [hinit, List.append_nil]
      unfold setTrackerAttrs
      rw [filter_elig_map _ setTrackerAttrs_elig]
      rw [map_md_map _ setTrackerAttrs_md]
      rw [getOrInsert_filter_elig, getOrInsert_filter_elig, getOrInsert_filter_elig]
      show (((trackerPhase1 m.functions 0).1.filter shouldInstrumentFunction).map
        fun f => f.funcIdMD) = _
      rw [hids, hrange]
    · intro f hf hin
      rw [tracker_run_functions m hne'] at hf
      obtain ⟨g, hg, rfl⟩ := List.mem_map.mp hf
      rw [phase5_elig] at hin
      rw [phase5_md]
      rcases List.mem_append.mp hg with hg1 | hg2
      · unfold setTrackerAttrs at hg1
        obtain ⟨g', hg', rfl⟩ := List.mem_map.mp hg1
        rw [setTrackerAttrs_elig] at hin
        rw [setTrackerAttrs_md]
        have hcases : g' ∈ (trackerPhase1 m.functions 0).1
            ∨ g'.funcIdMD = none := by
          rcases getOrInsert_mem _ _ g' hg' with h3 | rfl
          · rcases getOrInsert_mem _ _ g' h3 with h2 | rfl
            · rcases getOrInsert_mem _ _ g' h2 with h1 | rfl
              · exact Or.inl h1
              · exact Or.inr rfl
            · exact Or.inr rfl
          · exact Or.inr rfl
        rcases hcases with hmem | hnone
        · exact hclean g' (trackerPhase1_inelig m.functions 0 g' hmem hin)
        · exact hnone
      · have hg2' : g = trackerInitFunc (trackerPhase1 m.functions 0).2.length := by
          simpa using hg2
        rw [hg2']
        rfl

theorem claim_C6_witness :
    ((∀ f ∈ mMarked.functions, f.funcIdMD = none)
      ∧ mMarked.functions.length < 2 ^ 32)
    ∧ ((((UnsafeFunctionTrackerPass.run true mMarked).1.functions.filter
          shouldInstrumentFunction).map fun f => f.funcIdMD)
        = (List.range (mMarked.functions.filter
            shouldInstrumentFunction).length).map some
      ∧ (∀ f ∈ (UnsafeFunctionTrackerPass.run true mMarked).1.functions,
          shouldInstrumentFunction f = false → f.funcIdMD = none)) :=
  ⟨⟨by decide, by decide⟩, claim_C6 mMarked (by decide) (by decide)⟩

theorem tracker_run_globals (m : IRModule)
    (hne : (trackerPhase1 m.functions 0).2.isEmpty = false) :
    (UnsafeFunctionTrackerPass.run true m).1.globals
      = m.globals ++ [metadataTableGlobal (trackerPhase1 m.functions 0).2] := by
  unfold UnsafeFunctionTrackerPass.run
  simp only [Bool.not_true, Bool.false_eq_true, if_false, hne]
  rw [getOrInsert_globals, getOrInsert_globals, getOrInsert_globals]
  rfl

/-- **C9 (confirmed).** On a primary-build module whose blocks respect the
marker-balance invariant and with at least one eligible function,
FunctionTracker emits the `__unsafe_metadata_table` global whose records pair
off, in order, with the eligible functions, and each record's `hasUnsafeInst`
byte is `1` exactly when the function holds an `unsafe_inst` instruction
inside an open begin/end sentinel region of one of its blocks (an
`unsafe_inst` outside every region does not raise the byte). -/
theorem claim_C9 (m : IRModule)
    (hbal : ∀ f ∈ m.functions, ∀ b ∈ f.blocks, balancedBlock b = true)
    (hne : (trackerPhase1 m.functions 0).2.isEmpty = false) :
    metadataTableGlobal (trackerPhase1 m.functions 0).2
      ∈ (UnsafeFunctionTrackerPass.run true m).1.globals
    ∧ List.Forall₂ (fun (r : Nat × Nat × Nat × Nat) (f : Func) =>
        r.2.1 = 1 ↔ specHasUnsafeInRegion f = true)
      (trackerPhase1 m.functions 0).2
      (m.functions.filter shouldInstrumentFunction) := by
  constructor
  · rw [tracker_run_globals m hne]
    exact List.mem_append_right _ (List.mem_singleton.mpr rfl)
  · exact trackerPhase1_recs_spec m.functions hbal 0

theorem claim_C9_witness :
    ((∀ f ∈ mMarked.functions, ∀ b ∈ f.blocks, balancedBlock b = true)
      ∧ (trackerPhase1 mMarked.functions 0).2.isEmpty = false)
    ∧ (metadataTableGlobal (trackerPhase1 mMarked.functions 0).2
        ∈ (UnsafeFunctionTrackerPass.run true mMarked).1.globals
      ∧ List.Forall₂ (fun (r : Nat × Nat × Nat × Nat) (f : Func) =>
          r.2.1 = 1 ↔ specHasUnsafeInRegion f = true)
        (trackerPhase1 mMarked.functions 0).2
        (mMarked.functions.filter shouldInstrumentFunction)) :=
  ⟨⟨by decide, by decide⟩, claim_C9 mMarked (by decide) (by decide)⟩



theorem BlockCounts_ext {a b : BlockCounts}
    (h1 : a.totalInsts = b.totalInsts)
    (h2 : a.totalUnsafeInsts = b.totalUnsafeInsts)
    (h3 : a.cntLoad = b.cntLoad) (h4 : a.cntStore = b.cntStore)
    (h5 : a.cntCall = b.cntCall) (h6 : a.cntCast = b.cntCast)
    (h7 : a.cntGep = b.cntGep) (h8 : a.cntOther = b.cntOther) : a = b := by
  rcases a with ⟨_, _, _, _, _, _, _, _⟩
  rcases b with ⟨_, _, _, _, _, _, _, _⟩
  simp_all

theorem analyzeStep_reduce (c : BlockCounts) (fl : Bool) (i : Inst) :
    analyzeStep (reduceCounts c, fl) i
      = (reduceCounts (idealStep (c, fl) i).1, (idealStep (c, fl) i).2) := by
  rcases c with ⟨t, u, l, st, ca, cst, g, o⟩
  unfold analyzeStep idealStep
  dsimp only
  by_cases hd : i.isDbgIntrinsic = true
  · rw [if_pos hd, if_pos hd]
  · rw [if_neg hd, if_neg hd]
    by_cases hb : isMarkerBegin i = true
    · rw [if_pos hb, if_pos hb]
    · rw [if_neg hb, if_neg hb]
      by_cases he : isMarkerEnd i = true
      · rw [if_pos he, if_pos he]
      · rw [if_neg he, if_neg he]
        rcases fl with _ | _
        · rw [if_neg (by decide : ¬(false = true)),
            if_neg (by decide : ¬(false = true))]
          refine Prod.ext
            (BlockCounts_ext ?_ ?_ ?_ ?_ ?_ ?_ ?_ ?_) rfl <;>
            (dsimp only [reduceCounts]; try omega)
        · rw [if_pos rfl, if_pos rfl]
          rcases hcat : getUnsafeCategory i.opcode <;>
            (dsimp only [bumpCategory, idealStep.bumpCategoryIdeal]) <;>
            refine Prod.ext (BlockCounts_ext ?_ ?_ ?_ ?_ ?_ ?_ ?_ ?_) rfl <;>
            (dsimp only [reduceCounts]; try omega)

theorem analyze_foldl_ideal (b : List Inst) :
    ∀ (c : BlockCounts) (fl : Bool),
      b.foldl analyzeStep (reduceCounts c, fl)
        = (reduceCounts ((b.foldl idealStep (c, fl)).1),
            (b.foldl idealStep (c, fl)).2) := by
  induction b with
  | nil => intro c fl; rfl
  | cons i t ih =>
    intro c fl
    rw [List.foldl_cons, List.foldl_cons, analyzeStep_reduce]
    exact ih (idealStep (c, fl) i).1 (idealStep (c, fl) i).2

theorem analyzeBasicBlock_eq (b : List Inst) :
    analyzeBasicBlock b = reduceCounts (idealCounts b) := by
  unfold analyzeBasicBlock idealCounts
  have h0 : (({} : BlockCounts), false) = (reduceCounts {}, false) := rfl
  conv_lhs => rw [h0]
  rw [analyze_foldl_ideal b {} false]


theorem idealStep_sumCats (c : BlockCounts) (fl : Bool) (i : Inst) :
    sumCats ((idealStep (c, fl) i).1) + c.totalUnsafeInsts
      = (idealStep (c, fl) i).1.totalUnsafeInsts + sumCats c := by
  unfold idealStep
  by_cases hd : i.isDbgIntrinsic = true
  · rw [if_pos hd]
    show sumCats c + c.totalUnsafeInsts = c.totalUnsafeInsts + sumCats c
    omega
  · rw [if_neg hd]
    by_cases hb : isMarkerBegin i = true
    · rw [if_pos hb]
      show sumCats c + c.totalUnsafeInsts = c.totalUnsafeInsts + sumCats c
      omega
    · rw [if_neg hb]
      by_cases he : isMarkerEnd i = true
      · rw [if_pos he]
        show sumCats c + c.totalUnsafeInsts = c.totalUnsafeInsts + sumCats c
        omega
      · rw [if_neg he]
        rcases fl with _ | _
        · rw [if_neg (show ¬((c, (false : Bool)).2 = true) by simp)]
          show sumCats { c with totalInsts := c.totalInsts + 1 } + c.totalUnsafeInsts
            = c.totalUnsafeInsts + sumCats c
          simp only [sumCats]
          omega
        · rw [if_pos (show (c, (true : Bool)).2 = true from rfl)]
          rcases hcat : getUnsafeCategory i.opcode <;>
            (simp only [idealStep.bumpCategoryIdeal, sumCats]; omega)

theorem ideal_sumCats (b : List Inst) :
    ∀ (c : BlockCounts) (fl : Bool),
      sumCats ((b.foldl idealStep (c, fl)).1) + c.totalUnsafeInsts
        = ((b.foldl idealStep (c, fl)).1).totalUnsafeInsts + sumCats c := by
  induction b with
  | nil =>
    intro c fl
    rw [List.foldl_nil]
    show sumCats c + c.totalUnsafeInsts = c.totalUnsafeInsts + sumCats c
    omega
  | cons i t ih =>
    intro c fl
    rw [List.foldl_cons]
    have h1 := ih (idealStep (c, fl) i).1 (idealStep (c, fl) i).2
    simp only [Prod.mk.eta] at h1
    have h2 := idealStep_sumCats c fl i
    omega

theorem idealStep_totalInsts (c : BlockCounts) (fl : Bool) (i : Inst) :
    (idealStep (c, fl) i).1.totalInsts
      = c.totalInsts + (if !i.isDbgIntrinsic && !isMarkerInst i then 1 else 0) := by
  unfold idealStep isMarkerInst
  by_cases hd : i.isDbgIntrinsic = true
  · rw [if_pos hd,
      if_neg (show ¬((!i.isDbgIntrinsic
        && !(isMarkerBegin i || isMarkerEnd i)) = true) by simp [hd])]
    simp
  · rw [if_neg hd]
    by_cases hb : isMarkerBegin i = true
    · rw [if_pos hb,
        if_neg (show ¬((!i.isDbgIntrinsic
          && !(isMarkerBegin i || isMarkerEnd i)) = true) by simp [hb])]
      simp
    · rw [if_neg hb]
      by_cases he : isMarkerEnd i = true
      · rw [if_pos he,
          if_neg (show ¬((!i.isDbgIntrinsic
            && !(isMarkerBegin i || isMarkerEnd i)) = true) by simp [he])]
        simp
      · rw [if_neg he,
          if_pos (show (!i.isDbgIntrinsic
            && !(isMarkerBegin i || isMarkerEnd i)) = true by
              simp [eq_false_of_ne_true hd, eq_false_of_ne_true hb,
                eq_false_of_ne_true he])]
        rcases fl with _ | _
        · rw [if_neg (show ¬((c, (false : Bool)).2 = true) by simp)]
        · rw [if_pos (show (c, (true : Bool)).2 = true from rfl)]
          rcases hcat : getUnsafeCategory i.opcode <;>
            simp only [idealStep.bumpCategoryIdeal]

theorem ideal_totalInsts (b : List Inst) :
    ∀ (c : BlockCounts) (fl : Bool),
      ((b.foldl idealStep (c, fl)).1).totalInsts = c.totalInsts + countedCount b := by
  induction b with
  | nil => intro c fl; rw [List.foldl_nil]; simp [countedCount]
  | cons i t ih =>
    intro c fl
    rw [List.foldl_cons]
    have h1 := ih (idealStep (c, fl) i).1 (idealStep (c, fl) i).2
    simp only [Prod.mk.eta] at h1
    have h2 := idealStep_totalInsts c fl i
    unfold countedCount at h1 ⊢
    rw [List.filter_cons]
    by_cases hc : (!i.isDbgIntrinsic && !isMarkerInst i) = true
    · rw [if_pos hc] at h2
      rw [if_pos hc, List.length_cons]
      omega
    · rw [if_neg hc] at h2
      rw [if_neg hc]
      omega

theorem rep_load_ideal :
    ∀ (n : Nat) (c : BlockCounts),
      (List.replicate n loadI).foldl idealStep (c, true)
        = ({ c with
              totalInsts := c.totalInsts + n
              totalUnsafeInsts := c.totalUnsafeInsts + n
              cntLoad := c.cntLoad + n }, true)
  | 0, c => by
    rw [List.replicate_zero, List.foldl_nil]
    refine Prod.ext (BlockCounts_ext ?_ ?_ ?_ ?_ ?_ ?_ ?_ ?_) rfl <;>
      (dsimp only; try omega)
  | n + 1, c => by
    rw [List.replicate_succ, List.foldl_cons]
    have hstep : idealStep (c, true) loadI
        = ({ c with
              totalInsts := c.totalInsts + 1
              totalUnsafeInsts := c.totalUnsafeInsts + 1
              cntLoad := c.cntLoad + 1 }, true) := rfl
    rw [hstep, rep_load_ideal n]
    refine Prod.ext (BlockCounts_ext ?_ ?_ ?_ ?_ ?_ ?_ ?_ ?_) rfl <;>
      (dsimp only; try omega)

theorem idealCounts_bbC7 :
    idealCounts bbC7
      = { totalInsts := 65537, totalUnsafeInsts := 65536, cntLoad := 65536 } := by
  unfold idealCounts bbC7
  rw [List.foldl_cons]
  have h1 : idealStep (({} : BlockCounts), false) mkMarkerBegin = ({}, true) := rfl
  rw [h1, List.foldl_append, rep_load_ideal 65536 {}]
  rfl

/-- **C7 (corrected).** The six per-category counters of a
`__unsafe_record_block` call are `uint16_t` while the `unsafe_total` field is
`uint32_t`, so the sum of the categories agrees with `unsafe_total` only
modulo `2 ^ 16`; the agreement is exact when the block's unsafe-instruction
count stays below `2 ^ 16`. -/
theorem claim_C7_amended (b : List Inst) :
    sumCats (analyzeBasicBlock b) % 2 ^ 16
        = (analyzeBasicBlock b).totalUnsafeInsts % 2 ^ 16
    ∧ ((idealCounts b).totalUnsafeInsts < 2 ^ 16 →
        sumCats (analyzeBasicBlock b) = (analyzeBasicBlock b).totalUnsafeInsts) := by
  have hred := analyzeBasicBlock_eq b
  have hsum : sumCats (idealCounts b) = (idealCounts b).totalUnsafeInsts := by
    have h := ideal_sumCats b {} false
    have h0s : sumCats ({} : BlockCounts) = 0 := rfl
    have h0u : ({} : BlockCounts).totalUnsafeInsts = 0 := rfl
    unfold idealCounts
    show sumCats ((b.foldl idealStep ({}, false)).1)
      = ((b.foldl idealStep ({}, false)).1).totalUnsafeInsts
    omega
  rw [hred]
  rcases hI : idealCounts b with ⟨t, u, l, st, ca, cst, g, o⟩
  rw [hI] at hsum
  simp only [sumCats, reduceCounts] at hsum ⊢
  constructor
  · omega
  · intro h
    omega

theorem claim_C7_amended_witness :
    ((idealCounts [mkMarkerBegin, loadU, mkMarkerEnd, retI]).totalUnsafeInsts
        < 2 ^ 16)
    ∧ sumCats (analyzeBasicBlock [mkMarkerBegin, loadU, mkMarkerEnd, retI])
        = (analyzeBasicBlock [mkMarkerBegin, loadU, mkMarkerEnd, retI]).totalUnsafeInsts :=
  ⟨by decide,
    (claim_C7_amended [mkMarkerBegin, loadU, mkMarkerEnd, retI]).2 (by decide)⟩

/-- **C7, counterexample.** On a block holding 65536 unsafe loads inside one
marker region, the 16-bit load counter wraps to `0` while the 32-bit
`unsafe_total` field reports `65536`: the emitted category counts sum to `0`,
not to `unsafe_total`. -/
theorem claim_C7_cex :
    sumCats (analyzeBasicBlock bbC7) = 0
    ∧ (analyzeBasicBlock bbC7).totalUnsafeInsts = 65536 := by
  rw [analyzeBasicBlock_eq, idealCounts_bbC7]
  exact ⟨rfl, rfl⟩

theorem analyze_totalInsts (b : List Inst) :
    (analyzeBasicBlock b).totalInsts = countedCount b % 2 ^ 32 := by
  rw [analyzeBasicBlock_eq]
  show (idealCounts b).totalInsts % 2 ^ 32 = countedCount b % 2 ^ 32
  have h := ideal_totalInsts b {} false
  have h0 : ({} : BlockCounts).totalInsts = 0 := rfl
  unfold idealCounts
  omega

/-- **C8 (confirmed).** On a primary-build eligible function carrying a
function id (not the `UINT32_MAX` sentinel), InstructionCounter rewrites each
block through `instCounterBlock`; a block with no counted instruction is left
alone, and a block with at least one counted instruction receives exactly one
`__unsafe_record_block` call immediately before its last instruction (the
terminator), whose `total` field counts every instruction of the block except
marker sentinels and debug intrinsics; when the block has no unsafe
instructions the call still lands, with `unsafe_total` and all six category
fields zero. -/
theorem claim_C8 (F : Func) (v : Nat)
    (helig : shouldInstrumentFunction F = true)
    (hmd : F.funcIdMD = some v)
    (hv : ¬(v % 2 ^ 32 = 2 ^ 32 - 1))
    (hsz : ∀ b ∈ F.blocks, countedCount b < 2 ^ 32) :
    (UnsafeInstCounterPass.run true F).1.blocks
        = F.blocks.map (instCounterBlock (v % 2 ^ 32))
    ∧ ∀ b ∈ F.blocks,
        (countedCount b = 0 → instCounterBlock (v % 2 ^ 32) b = b)
        ∧ (countedCount b ≠ 0 →
            ∃ c : BlockCounts,
              instCounterBlock (v % 2 ^ 32) b
                  = b.dropLast
                      ++ recordBlockCall (v % 2 ^ 32) c :: b.drop (b.length - 1)
              ∧ c.totalInsts = countedCount b
              ∧ ((analyzeBasicBlock b).totalUnsafeInsts = 0 →
                  c.totalUnsafeInsts = 0 ∧ sumCats c = 0)) := by
  constructor
  · unfold UnsafeInstCounterPass.run
    rw [helig, hmd]
    simp only [Bool.not_true, Bool.false_eq_true, if_false, if_neg hv]
  · intro b hb
    have ht : (analyzeBasicBlock b).totalInsts = countedCount b := by
      rw [analyze_totalInsts]
      exact Nat.mod_eq_of_lt (hsz b hb)
    constructor
    · intro h0
      simp only [instCounterBlock]
      rw [if_pos (by rw [ht]; exact h0)]
    · intro hne
      simp only [instCounterBlock]
      rw [if_neg (by rw [ht]; exact hne)]
      by_cases hu : (analyzeBasicBlock b).totalUnsafeInsts = 0
      · rw [if_pos hu]
        refine ⟨{ totalInsts := (analyzeBasicBlock b).totalInsts }, rfl, ?_, ?_⟩
        · show (analyzeBasicBlock b).totalInsts = countedCount b
          exact ht
        · intro _
          exact ⟨rfl, rfl⟩
      · rw [if_neg hu]
        exact ⟨analyzeBasicBlock b, rfl, ht, fun h => absurd h hu⟩

theorem claim_C8_witness :
    (shouldInstrumentFunction fC8 = true ∧ fC8.funcIdMD = some 0
      ∧ ¬((0 : Nat) % 2 ^ 32 = 2 ^ 32 - 1)
      ∧ ∀ b ∈ fC8.blocks, countedCount b < 2 ^ 32)
    ∧ ((UnsafeInstCounterPass.run true fC8).1.blocks
          = fC8.blocks.map (instCounterBlock (0 % 2 ^ 32))
      ∧ ∀ b ∈ fC8.blocks,
          (countedCount b = 0 → instCounterBlock (0 % 2 ^ 32) b = b)
          ∧ (countedCount b ≠ 0 →
              ∃ c : BlockCounts,
                instCounterBlock (0 % 2 ^ 32) b
                    = b.dropLast
                        ++ recordBlockCall (0 % 2 ^ 32) c :: b.drop (b.length - 1)
                ∧ c.totalInsts = countedCount b
                ∧ ((analyzeBasicBlock b).totalUnsafeInsts = 0 →
                    c.totalUnsafeInsts = 0 ∧ sumCats c = 0))) :=
  ⟨⟨by decide, rfl, by decide, by decide⟩,
    claim_C8 fC8 0 (by decide) rfl (by decide) (by decide)⟩

theorem startsOk_cons_not (g : Inst → Bool) (i : Inst) (l : List Inst)
    (h : isExtStart i = false) : startsOk g (i :: l) = startsOk g l := by
  unfold startsOk
  rw [if_neg (by simp [h])]
  cases l <;> rfl

theorem isExtStart_fence : isExtStart fenceInst = false := rfl

theorem isExtStart_end (t : Nat) : isExtStart (extEndCall t) = false := rfl

theorem isExtStart_start (k : Nat) : isExtStart (extStartCall k) = true := rfl

theorem extGo_startsOk (g : Inst → Bool) (b : List Inst) :
    ∀ (k : Nat) (pending : Option Nat), (b.any isExtStart) = false →
      startsOk g ((extGo g k pending b).1) = true := by
  induction b with
  | nil => intro k pending h; rfl
  | cons i rest ih =>
    intro k pending h
    rw [List.any_cons] at h
    have hi : isExtStart i = false := by
      rcases Bool.or_eq_false_iff.mp h with ⟨h1, _⟩
      exact h1
    have hrest : (rest.any isExtStart) = false := by
      rcases Bool.or_eq_false_iff.mp h with ⟨_, h2⟩
      exact h2
    simp only [extGo]
    by_cases hd : i.isDbgIntrinsic = true
    · rw [if_pos hd]
      show startsOk g (i :: (extGo g k pending rest).1) = true
      rw [startsOk_cons_not g i _ hi]
      exact ih k pending hrest
    · rw [if_neg hd]
      rcases pending with _ | t
      · by_cases he : (g i && !i.isTerm) = true
        · rw [if_pos he]
          show startsOk g
            ([] ++ fenceInst :: extStartCall k :: i
              :: (extGo g (k + 1) (some k) rest).1) = true
          rw [List.nil_append, startsOk_cons_not g fenceInst _ isExtStart_fence]
          unfold startsOk
          rw [if_pos (isExtStart_start k)]
          rw [startsOk_cons_not g i _ hi]
          have hgi : g i = true := by
            simp only [Bool.and_eq_true] at he
            exact he.1
          simp only [hgi, Bool.true_and]
          exact ih (k + 1) (some k) hrest
        · rw [if_neg he]
          show startsOk g ([] ++ i :: (extGo g k none rest).1) = true
          rw [List.nil_append, startsOk_cons_not g i _ hi]
          exact ih k none hrest
      · by_cases he : (g i && !i.isTerm) = true
        · rw [if_pos he]
          show startsOk g
            ([fenceInst, extEndCall t] ++ fenceInst :: extStartCall k :: i
              :: (extGo g (k + 1) (some k) rest).1) = true
          rw [List.cons_append, List.cons_append, List.nil_append,
            startsOk_cons_not g fenceInst _ isExtStart_fence,
            startsOk_cons_not g (extEndCall t) _ (isExtStart_end t),
            startsOk_cons_not g fenceInst _ isExtStart_fence]
          unfold startsOk
          rw [if_pos (isExtStart_start k)]
          rw [startsOk_cons_not g i _ hi]
          have hgi : g i = true := by
            simp only [Bool.and_eq_true] at he
            exact he.1
          simp only [hgi, Bool.true_and]
          exact ih (k + 1) (some k) hrest
        · rw [if_neg he]
          show startsOk g
            ([fenceInst, extEndCall t] ++ i :: (extGo g k none rest).1) = true
          rw [List.cons_append, List.cons_append, List.nil_append,
            startsOk_cons_not g fenceInst _ isExtStart_fence,
            startsOk_cons_not g (extEndCall t) _ (isExtStart_end t),
            startsOk_cons_not g i _ hi]
          exact ih k none hrest

/-- **C2 (corrected).** Only the three runtime prefixes `cpu_cycle_`,
`record_` and `external_call_` are protected by ExternalCallTracker's
`isRuntimeFunction` filter: a call whose resolved callee carries one of them
is never an eligible site, and every `external_call_start` the pass inserts
into a start-free block stands immediately before an eligible site.  The
other reserved helper families (`__unsafe_`, `dyn_mem_`, the DynamicLineCount
helper names) are not in the filter, so calls to those declared helpers can
be wrapped. -/
theorem claim_C2_amended (m : IRModule) (b : List Inst) (k : Nat)
    (hclean : (b.any isExtStart) = false) :
    (∀ (i : Inst) (f : Func),
        (match i.kind with
          | .dirCall _ callee _ => m.lookupFunc callee
          | _ => none) = some f →
        isRuntimeFunction f.name = true → isExternalCallSite m i = false)
    ∧ startsOk (isExternalCallSite m)
        ((extGo (isExternalCallSite m) k none b).1) = true := by
  constructor
  · intro i f hlook hrt
    unfold isExternalCallSite
    rcases hk : i.kind with op | a | ⟨op, callee, args⟩ | _
    · rw [hk] at hlook
    · rw [hk] at hlook
    · rw [hk] at hlook
      have hfind : m.lookupFunc callee = some f := hlook
      show (match m.lookupFunc callee with
        | some f => f.isDeclaration && !f.isIntrinsic && !isRuntimeFunction f.name
        | none => false) = false
      rw [hfind]
      simp [hrt]
    · rw [hk] at hlook
  · exact extGo_startsOk (isExternalCallSite m) b k none hclean

theorem claim_C2_amended_witness :
    (([recBlockCallSite, retI] : List Inst).any isExtStart = false)
    ∧ ((∀ (i : Inst) (f : Func),
        (match i.kind with
          | .dirCall _ callee _ => mExtCex.lookupFunc callee
          | _ => none) = some f →
        isRuntimeFunction f.name = true → isExternalCallSite mExtCex i = false)
      ∧ startsOk (isExternalCallSite mExtCex)
          ((extGo (isExternalCallSite mExtCex) 0 none
            [recBlockCallSite, retI]).1) = true) :=
  ⟨by decide, claim_C2_amended mExtCex [recBlockCallSite, retI] 0 (by decide)⟩

/-- **C2, counterexample.** `__unsafe_record_block` carries the reserved
`__unsafe_` prefix, yet when `main` calls it and the helper is declared in
the module, ExternalCallTracker wraps the call with a fenced
`external_call_start`/`external_call_end` pair: the reserved-name space is
not honored beyond the three prefixes of `isRuntimeFunction`. -/
theorem claim_C2_cex :
    strStarts RECORD_BLOCK_FN "__unsafe_" = true
    ∧ ((ExternalCallTrackerPass.run true mExtCex).1.functions.map
          fun f => f.blocks)
        = [[[fenceInst, extStartCall 0, recBlockCallSite,
              fenceInst, extEndCall 0, retI]], [], [], []] := by
  constructor
  · decide
  · decide

/-- **C1 (corrected).** With `CARGO_PRIMARY_PACKAGE` unset or not `"1"`, the
six passes that call `getenv` (MarkerPlanter, CycleCounter,
ExternalCallTracker, FunctionTracker, InstructionCounter, HeapTracker) return
the module bit-identical and report no change, but the DebugInfoAnchor and
DynamicLineCount passes never consult the variable: DebugInfoAnchor appends
its anchor global to every module unconditionally. -/
theorem claim_C1_amended (m : IRModule) :
    instMarkerModule false m = (m, false)
    ∧ CpuCycleCountPass.run false m = (m, false)
    ∧ ExternalCallTrackerPass.run false m = (m, false)
    ∧ UnsafeFunctionTrackerPass.run false m = (m, false)
    ∧ instCounterModule false m = (m, false)
    ∧ heapTrackerModule false m = (m, false)
    ∧ (DebugInfoPreserverPass.run m).1.globals.length = m.globals.length + 1 := by
  refine ⟨rfl, rfl, rfl, rfl, rfl, rfl, ?_⟩
  unfold DebugInfoPreserverPass.run
  simp

/-- **C1, counterexample.** On the empty module, with the primary-package
gate closed, the DebugInfoAnchor pass emits its anchor global and the
DynamicLineCount pass declares its three runtime helpers while still
reporting no change: neither pass leaves the module bit-identical. -/
theorem claim_C1_cex :
    (DebugInfoPreserverPass.run emptyM).1 ≠ emptyM
    ∧ (DynamicLineCountPass.run emptyM).1 ≠ emptyM
    ∧ (DynamicLineCountPass.run emptyM).2 = false := by
  refine ⟨by decide, by decide, by decide⟩
